import Mathlib

/-!
Verification development for the Oral-Messaging peer node
(`omnode` package: `consensus_state.py`, `consensus.py`, `gossip.py`,
`node.py`; and the monolithic `myNode.py`).

Python dictionaries are embedded as association lists with insert-or-update
semantics that preserve insertion order, Python sets of strings as
duplicate-free lists, randomness (`random.random() <= lie_rate`) as an
oracle stream of booleans carried in the node state, `uuid.uuid4()` as a
counter-driven fresh-name supply, wall-clock time as an explicit integer
argument, and outbound `sendto` calls as an accumulating list of datagrams
(send errors are swallowed by the source, so a send is modelled as the
attempt itself).  `logging` is I/O; it is modelled only in
`start_root_consensus`, whose "No peers available" report is observable
behaviour, as an event list.
-/

namespace OM

/-- Lookup in a Python-dict embedding: the value at the first matching key. -/
def mapLookup {α : Type} : List (String × α) → String → Option α
  | [], _ => none
  | (k', v') :: rest, k => if k' = k then some v' else mapLookup rest k

/-- `d[k] = v` on a Python dict: overwrite in place if the key is present
(keeping its position, as CPython does), otherwise append. -/
def dictInsert {α : Type} : List (String × α) → String → α → List (String × α)
  | [], k, v => [(k, v)]
  | (k', v') :: rest, k, v =>
      if k' = k then (k', v) :: rest else (k', v') :: dictInsert rest k v

theorem mapLookup_dictInsert_self {α : Type} (l : List (String × α)) (k : String) (v : α) :
    mapLookup (dictInsert l k v) k = some v := by
  induction l with
  | nil => simp [dictInsert, mapLookup]
  | cons hd tl ih =>
      by_cases h : hd.1 = k <;>
        simp [dictInsert, mapLookup, h, ih]

theorem mapLookup_dictInsert_ne {α : Type} (l : List (String × α)) (k k' : String) (v : α)
    (h : k' ≠ k) : mapLookup (dictInsert l k v) k' = mapLookup l k' := by
  induction l with
  | nil => simp [dictInsert, mapLookup, Ne.symm h]
  | cons hd tl ih =>
      by_cases hk : hd.1 = k
      · subst hk
        simp [dictInsert, mapLookup, Ne.symm h]
      · simp [dictInsert, mapLookup, hk]
        by_cases hk' : hd.1 = k' <;> simp [hk', ih]

theorem dictInsert_lookup_eq {α : Type} (l : List (String × α)) (k : String) (v : α)
    (h : mapLookup l k = some v) : dictInsert l k v = l := by
  induction l with
  | nil => simp [mapLookup] at h
  | cons hd tl ih =>
      by_cases hk : hd.1 = k
      · obtain ⟨k0, v0⟩ := hd
        simp only at hk
        subst hk
        simp [mapLookup] at h
        simp [dictInsert, h]
      · simp [mapLookup, hk] at h
        simp [dictInsert, hk, ih h]

theorem dictInsert_ne_nil {α : Type} (l : List (String × α)) (k : String) (v : α) :
    dictInsert l k v ≠ [] := by
  cases l with
  | nil => simp [dictInsert]
  | cons hd tl =>
      by_cases h : hd.1 = k <;> simp [dictInsert, h]

theorem mapLookup_isSome_dictInsert {α : Type} (l : List (String × α)) (k k' : String) (v : α)
    (hk : (mapLookup l k).isSome) :
    (mapLookup (dictInsert l k v) k').isSome = (mapLookup l k').isSome := by
  by_cases h : k' = k
  · subst h
    simp [mapLookup_dictInsert_self, hk]
  · rw [mapLookup_dictInsert_ne _ _ _ _ h]

theorem mapLookup_mem {α : Type} (l : List (String × α)) (k : String) (v : α)
    (h : mapLookup l k = some v) : (k, v) ∈ l := by
  induction l with
  | nil => simp [mapLookup] at h
  | cons hd tl ih =>
      by_cases hk : hd.1 = k
      · obtain ⟨k0, v0⟩ := hd
        simp only at hk
        subst hk
        simp [mapLookup] at h
        simp [h]
      · simp [mapLookup, hk] at h
        exact List.mem_cons_of_mem _ (ih h)

/-- Minimum of a list of strings: `sorted(l)[0]` in the source is the least
element under Python's lexicographic string order, which coincides with the
linear order on `String`. -/
def listMin : List String → Option String
  | [] => none
  | x :: xs => some (xs.foldl min x)

theorem foldl_min_le (xs : List String) (a : String) : xs.foldl min a ≤ a := by
  induction xs generalizing a with
  | nil => simp
  | cons hd tl ih => exact le_trans (ih (min a hd)) (min_le_left _ _)

theorem foldl_min_le_mem (xs : List String) (a x : String) (h : x ∈ xs) :
    xs.foldl min a ≤ x := by
  induction xs generalizing a with
  | nil => simp at h
  | cons hd tl ih =>
      rcases List.mem_cons.mp h with h | h
      · subst h
        exact le_trans (foldl_min_le tl (min a x)) (min_le_right _ _)
      · exact ih (min a hd) h

theorem foldl_min_mem (xs : List String) (a : String) :
    xs.foldl min a ∈ xs ∨ xs.foldl min a = a := by
  induction xs generalizing a with
  | nil => simp
  | cons hd tl ih =>
      rcases ih (min a hd) with h | h
      · exact Or.inl (List.mem_cons_of_mem _ h)
      · rcases min_choice a hd with h' | h'
        · exact Or.inr (by rw [List.foldl_cons, h, h'])
        · exact Or.inl (by rw [List.foldl_cons, h, h']; exact List.mem_cons_self _ _)

theorem listMin_mem (l : List String) (w : String) (h : listMin l = some w) : w ∈ l := by
  cases l with
  | nil => simp [listMin] at h
  | cons hd tl =>
      simp [listMin] at h
      rcases foldl_min_mem tl hd with h' | h'
      · exact h ▸ List.mem_cons_of_mem _ h'
      · rw [← h, h']; exact List.mem_cons_self _ _

theorem listMin_le (l : List String) (w : String) (h : listMin l = some w) :
    ∀ v ∈ l, w ≤ v := by
  cases l with
  | nil => simp [listMin] at h
  | cons hd tl =>
      simp [listMin] at h
      intro v hv
      rcases List.mem_cons.mp hv with h' | h'
      · subst h'; rw [← h]; exact foldl_min_le tl v
      · rw [← h]; exact foldl_min_le_mem tl hd v h'

theorem listMin_isSome (l : List String) (h : l ≠ []) : (listMin l).isSome := by
  cases l with
  | nil => exact absurd rfl h
  | cons hd tl => simp [listMin]

theorem foldl_max_init (xs : List Nat) (a : Nat) : a ≤ xs.foldl max a := by
  induction xs generalizing a with
  | nil => simp
  | cons hd tl ih => exact le_trans (le_max_left a hd) (ih _)

theorem foldl_max_le_mem (xs : List Nat) (a x : Nat) (h : x ∈ xs) :
    x ≤ xs.foldl max a := by
  induction xs generalizing a with
  | nil => simp at h
  | cons hd tl ih =>
      rcases List.mem_cons.mp h with h | h
      · subst h
        exact le_trans (le_max_right a x) (foldl_max_init tl _)
      · exact ih (max a hd) h

theorem foldl_max_mem (xs : List Nat) (a : Nat) :
    xs.foldl max a ∈ xs ∨ xs.foldl max a = a := by
  induction xs generalizing a with
  | nil => simp
  | cons hd tl ih =>
      rcases ih (max a hd) with h | h
      · exact Or.inl (List.mem_cons_of_mem _ h)
      · rcases max_choice a hd with h' | h'
        · exact Or.inr (by rw [List.foldl_cons, h, h'])
        · exact Or.inl (by rw [List.foldl_cons, h, h']; exact List.mem_cons_self _ _)

/-! ## `ConsensusState` (`src/omnode/consensus_state.py`) -/

/-- The fields read by `ConsensusState.__init__` from the constructing
message (`msg.get(...)`).  `none` models an absent key; `freshId` stands for
the `uuid.uuid4()` default drawn when `"id"` is absent. -/
structure InitMsg where
  id : Option String
  omlevel : Option Int
  initiator : Option String
  peers : Option (List String)
  index : Option Int
  value : Option String
  parentid : Option String
  reporter : Option String
deriving Repr, DecidableEq

structure ConsensusState where
  id : String
  omlevel : Int
  initiator : String
  peers : List String
  index : Int
  value : String
  parentid : Option String
  reporter : Option String
  reports : List (String × String)
  resolved : Option String
  subconsensus_launched : List String
deriving Repr, DecidableEq

namespace ConsensusState

/-- `ConsensusState.__init__` (consensus_state.py lines 7-18). -/
def init (msg : InitMsg) (freshId : String) : ConsensusState where
  id := msg.id.getD freshId
  omlevel := msg.omlevel.getD 0
  initiator := msg.initiator.getD ""
  peers := msg.peers.getD []
  index := msg.index.getD 0
  value := msg.value.getD ""
  parentid := msg.parentid
  reporter := msg.reporter
  reports := []
  resolved := none
  subconsensus_launched := []

/-- `record_report` (consensus_state.py line 23-24): `self.reports[reporter] = value`. -/
def record_report (st : ConsensusState) (reporter value : String) : ConsensusState :=
  { st with reports := dictInsert st.reports reporter value }

/-- `is_complete` (consensus_state.py lines 26-28):
`set(self.peers).issubset(set(self.reports.keys()))`. -/
def is_complete (st : ConsensusState) : Bool :=
  st.peers.all (fun p => (st.reports.map Prod.fst).contains p)

/-- `decide` (consensus_state.py lines 30-39).  Returns the decided value and
the (possibly) updated state; `Counter` frequencies are occurrence counts
over the report values, `max(counts.values())` is the fold of `Nat.max`, the
`winners` comprehension keeps the distinct values attaining it, and
`sorted(winners)[0]` is their minimum.  The `none` branch of `listMin` is
unreachable for non-empty reports (`decide_winners_ne_nil`). -/
def decide (st : ConsensusState) : Option String × ConsensusState :=
  match st.resolved with
  | some r => (some r, st)
  | none =>
    if st.reports = [] then (none, st)
    else
      let vs := st.reports.map Prod.snd
      let best := (vs.map vs.count).foldl max 0
      let winners := vs.dedup.filter (fun v => vs.count v = best)
      match listMin winners with
      | some w => (some w, { st with resolved := some w })
      | none => (none, st)

/-- The multiset of report values, `self.reports.values()`. -/
def values (st : ConsensusState) : List String :=
  st.reports.map Prod.snd

theorem decide_of_resolved (st : ConsensusState) (r : String) (h : st.resolved = some r) :
    st.decide = (some r, st) := by
  simp [decide, h]

theorem decide_of_empty (st : ConsensusState) (h1 : st.resolved = none)
    (h2 : st.reports = []) : st.decide = (none, st) := by
  simp [decide, h1, h2]

theorem winners_ne_nil (vs : List String) (h : vs ≠ []) :
    vs.dedup.filter (fun v => vs.count v = (vs.map vs.count).foldl max 0) ≠ [] := by
  obtain ⟨v0, hv0⟩ : ∃ v, v ∈ vs := by
    cases vs with
    | nil => exact absurd rfl h
    | cons hd tl => exact ⟨hd, List.mem_cons_self _ _⟩
  have hbest : ∃ v ∈ vs, vs.count v = (vs.map vs.count).foldl max 0 := by
    rcases foldl_max_mem (vs.map vs.count) 0 with hm | hm
    · obtain ⟨v, hv, hcv⟩ := List.mem_map.mp hm
      exact ⟨v, hv, hcv⟩
    · have h1 : vs.count v0 ≤ (vs.map vs.count).foldl max 0 :=
        foldl_max_le_mem _ 0 _ (List.mem_map_of_mem _ hv0)
      have h2 : vs.count v0 ≠ 0 := by
        intro hc
        exact (List.count_eq_zero.mp hc) hv0
      omega
  obtain ⟨v, hv, hc⟩ := hbest
  exact List.ne_nil_of_mem (List.mem_filter.mpr ⟨List.mem_dedup.mpr hv, by simp [hc]⟩)

theorem decide_of_ne_empty (st : ConsensusState) (h1 : st.resolved = none)
    (h2 : st.reports ≠ []) :
    ∃ w, st.decide = (some w, { st with resolved := some w }) ∧
      w ∈ st.values ∧
      (∀ v ∈ st.values, st.values.count v ≤ st.values.count w) ∧
      (∀ v ∈ st.values, st.values.count v = st.values.count w → w ≤ v) := by
  have hvs : st.values ≠ [] := by
    simp only [values]
    intro hc
    exact h2 (List.map_eq_nil_iff.mp hc)
  have hwin := winners_ne_nil st.values hvs
  obtain ⟨w, hw⟩ := Option.isSome_iff_exists.mp (listMin_isSome _ hwin)
  have hwmem := listMin_mem _ _ hw
  have hwf := List.mem_filter.mp hwmem
  have hwcount : st.values.count w = (st.values.map st.values.count).foldl max 0 := by
    simpa using hwf.2
  refine ⟨w, ?_, List.mem_dedup.mp hwf.1, ?_, ?_⟩
  · simp only [decide, h1, if_neg h2]
    rw [show st.reports.map Prod.snd = st.values from rfl, hw]
  · intro v hv
    rw [hwcount]
    exact foldl_max_le_mem _ 0 _ (List.mem_map_of_mem _ hv)
  · intro v hv hc
    refine listMin_le _ _ hw v (List.mem_filter.mpr ⟨List.mem_dedup.mpr hv, ?_⟩)
    simp [hc, hwcount]

theorem decide_snd_resolved (st : ConsensusState) :
    ((st.decide).2).resolved = (st.decide).1 := by
  rcases hres : st.resolved with _ | r
  · rcases hrep : st.reports with _ | ⟨hd, tl⟩
    · simp [decide_of_empty st hres hrep, hres]
    · obtain ⟨w, hw, -⟩ := decide_of_ne_empty st hres (by simp [hrep])
      simp [hw]
  · simp [decide_of_resolved st r hres, hres]

/-- `decide` only ever writes the `resolved` field. -/
theorem decide_snd_eq (st : ConsensusState) :
    (st.decide).2 = { st with resolved := ((st.decide).2).resolved } := by
  rcases hres : st.resolved with _ | r
  · rcases hrep : st.reports with _ | ⟨hd, tl⟩
    · rw [decide_of_empty st hres hrep]
      cases st
      simp_all
    · obtain ⟨w, hw, -⟩ := decide_of_ne_empty st hres (by rw [hrep]; simp)
      rw [hw]
      simp [hrep]
  · rw [decide_of_resolved st r hres]

end ConsensusState

/-! ## Claim C1 -/

/-- C1: `ConsensusState.decide` on a state with no stored resolution and a
non-empty reports map returns the smallest (under string order, i.e.
lexicographic) value among the report values attaining the maximum
frequency, and stores it; once a resolved value is stored, `decide` returns
it and leaves the state unchanged; with zero reports it returns nothing. -/
theorem C1_decide_plurality_lex_min (st : ConsensusState) :
    (∀ r, st.resolved = some r → st.decide = (some r, st)) ∧
    (st.resolved = none → st.reports = [] → st.decide = (none, st)) ∧
    (st.resolved = none → st.reports ≠ [] →
      ∃ w, st.decide = (some w, { st with resolved := some w }) ∧
        w ∈ st.values ∧
        (∀ v ∈ st.values, st.values.count v ≤ st.values.count w) ∧
        (∀ v ∈ st.values, st.values.count v = st.values.count w → w ≤ v)) :=
  ⟨fun r h => ConsensusState.decide_of_resolved st r h,
   fun h1 h2 => ConsensusState.decide_of_empty st h1 h2,
   fun h1 h2 => ConsensusState.decide_of_ne_empty st h1 h2⟩

/-- Concrete witness for C1: two reporters with distinct values tie at
frequency 1; the lexicographically smaller value "x" wins and is stored. -/
theorem C1_decide_plurality_lex_min_witness :
    (let st : ConsensusState :=
      { id := "I", omlevel := 0, initiator := "", peers := ["a:1", "b:2"], index := 0,
        value := "", parentid := none, reporter := none,
        reports := [("a:1", "y"), ("b:2", "x")], resolved := none,
        subconsensus_launched := [] }
     st.resolved = none ∧ st.reports ≠ [] ∧
       ∃ w, st.decide = (some w, { st with resolved := some w }) ∧
         w ∈ st.values ∧
         (∀ v ∈ st.values, st.values.count v ≤ st.values.count w) ∧
         (∀ v ∈ st.values, st.values.count v = st.values.count w → w ≤ v)) :=
  ⟨rfl, by decide, (C1_decide_plurality_lex_min _).2.2 rfl (by decide)⟩

/-! ## `ConsensusState` as defined in the monolithic `src/myNode.py` (lines 37-70)

A second, independent translation used only to compare the two
implementations (claim C10). -/

structure MonoConsensusState where
  id : String
  omlevel : Int
  initiator : String
  peers : List String
  index : Int
  value : String
  parentid : Option String
  reporter : Option String
  reports : List (String × String)
  resolved : Option String
  subconsensus_launched : List String
deriving Repr, DecidableEq

namespace MonoConsensusState

/-- `ConsensusState.__init__` (myNode.py lines 38-49). -/
def init (msg : InitMsg) (freshId : String) : MonoConsensusState where
  id := msg.id.getD freshId
  omlevel := msg.omlevel.getD 0
  initiator := msg.initiator.getD ""
  peers := msg.peers.getD []
  index := msg.index.getD 0
  value := msg.value.getD ""
  parentid := msg.parentid
  reporter := msg.reporter
  reports := []
  resolved := none
  subconsensus_launched := []

/-- `record_report` (myNode.py lines 54-55). -/
def record_report (st : MonoConsensusState) (reporter value : String) : MonoConsensusState :=
  { st with reports := dictInsert st.reports reporter value }

/-- `is_complete` (myNode.py lines 57-59). -/
def is_complete (st : MonoConsensusState) : Bool :=
  st.peers.all (fun p => (st.reports.map Prod.fst).contains p)

/-- `decide` (myNode.py lines 61-70). -/
def decide (st : MonoConsensusState) : Option String × MonoConsensusState :=
  match st.resolved with
  | some r => (some r, st)
  | none =>
    if st.reports = [] then (none, st)
    else
      let vs := st.reports.map Prod.snd
      let best := (vs.map vs.count).foldl max 0
      let winners := vs.dedup.filter (fun v => vs.count v = best)
      match listMin winners with
      | some w => (some w, { st with resolved := some w })
      | none => (none, st)

end MonoConsensusState

/-- Field-for-field correspondence between the `omnode` package state and the
monolithic `myNode.py` state. -/
def toMono (st : ConsensusState) : MonoConsensusState where
  id := st.id
  omlevel := st.omlevel
  initiator := st.initiator
  peers := st.peers
  index := st.index
  value := st.value
  parentid := st.parentid
  reporter := st.reporter
  reports := st.reports
  resolved := st.resolved
  subconsensus_launched := st.subconsensus_launched

theorem toMono_init (msg : InitMsg) (freshId : String) :
    toMono (ConsensusState.init msg freshId) = MonoConsensusState.init msg freshId := rfl

theorem toMono_record_report (st : ConsensusState) (r v : String) :
    toMono (st.record_report r v) = (toMono st).record_report r v := rfl

theorem toMono_is_complete (st : ConsensusState) :
    (toMono st).is_complete = st.is_complete := rfl

theorem toMono_decide (st : ConsensusState) :
    (toMono st).decide = ((st.decide).1, toMono (st.decide).2) := by
  obtain ⟨i, om, ini, pe, ix, va, pid, rep, reports, res, lau⟩ := st
  rcases res with _ | r
  · by_cases hrep : reports = []
    · subst hrep
      rfl
    · simp only [ConsensusState.decide, MonoConsensusState.decide, toMono, if_neg hrep]
      split <;> rename_i heq <;> rw [heq]
  · rfl

/-! ## Claim C10 -/

/-- C10: the `ConsensusState` in `omnode/consensus_state.py` and the one in
`myNode.py` are extensionally equal: from any construction message and after
any sequence of `record_report` calls, the two implementations are in
corresponding states, and their `is_complete` and `decide` agree (same
decision, corresponding post-states). -/
theorem C10_consensus_state_impls_equal (msg : InitMsg) (freshId : String)
    (ops : List (String × String)) :
    (toMono (ops.foldl (fun st kv => st.record_report kv.1 kv.2)
        (ConsensusState.init msg freshId)) =
      ops.foldl (fun st kv => st.record_report kv.1 kv.2)
        (MonoConsensusState.init msg freshId)) ∧
    ((ops.foldl (fun st kv => st.record_report kv.1 kv.2)
        (MonoConsensusState.init msg freshId)).is_complete =
      (ops.foldl (fun st kv => st.record_report kv.1 kv.2)
        (ConsensusState.init msg freshId)).is_complete) ∧
    ((ops.foldl (fun st kv => st.record_report kv.1 kv.2)
        (MonoConsensusState.init msg freshId)).decide =
      (((ops.foldl (fun st kv => st.record_report kv.1 kv.2)
          (ConsensusState.init msg freshId)).decide).1,
        toMono ((ops.foldl (fun st kv => st.record_report kv.1 kv.2)
          (ConsensusState.init msg freshId)).decide).2)) := by
  have hfold : ∀ (ops : List (String × String)) (st : ConsensusState),
      toMono (ops.foldl (fun st kv => st.record_report kv.1 kv.2) st) =
        ops.foldl (fun st kv => st.record_report kv.1 kv.2) (toMono st) := by
    intro ops
    induction ops with
    | nil => intro st; rfl
    | cons hd tl ih =>
        intro st
        rw [List.foldl_cons, List.foldl_cons, ih, toMono_record_report]
  have hcorr := hfold ops (ConsensusState.init msg freshId)
  rw [toMono_init] at hcorr
  refine ⟨hcorr, ?_, ?_⟩
  · rw [← hcorr, toMono_is_complete]
  · rw [← hcorr, toMono_decide]

/-! ## Node state (`src/omnode/node.py`) and wire messages -/

/-- `peer_key` (utils.py lines 12-13). -/
def peer_key (host : String) (port : Int) : String :=
  host ++ ":" ++ toString port

/-- `uuid.uuid4()` modelled as a counter-driven fresh-name supply. -/
def uuidGen (n : Nat) : String :=
  "uuid-" ++ toString n

/-- A membership record (`node.py` line 57). -/
structure PeerRec where
  host : String
  port : Int
  name : String
  lastSeen : Int
deriving Repr, DecidableEq

/-- A CONSENSUS wire message.  `parentid`/`reporter`/`default_value` may be
absent (`msg.get` returns `None`); the remaining fields are carried by every
CONSENSUS datagram the engine builds. -/
structure CMsg where
  command : String
  id : String
  omlevel : Int
  initiator : String
  peers : List String
  index : Int
  value : String
  parentid : Option String
  reporter : Option String
  default_value : Option String
deriving Repr, DecidableEq

/-- A GOSSIP / GOSSIP_REPLY wire message; `host`, `port`, `name`, `cliPort`
may be absent. -/
structure GMsg where
  command : String
  host : Option String
  port : Option Int
  name : Option String
  id : String
  cliPort : Option Int
deriving Repr, DecidableEq

/-- An outbound datagram payload. -/
inductive OutMsg where
  | consensus (m : CMsg)
  | gossip (m : GMsg)
  | gossipReply (m : GMsg)
deriving Repr, DecidableEq

/-- The log lines of `start_root_consensus` (consensus.py lines 105 and
138-144), the only logging a claim observes. -/
inductive LogEvent where
  | noPeers
  | startedConsensus (cid : String) (index : Int) (value : String) (m : Int)
deriving Repr, DecidableEq

/-- The `PeerNode` state relevant to gossip and consensus (node.py lines
17-50).  `lies` is the oracle stream of outcomes of
`random.random() <= lie_rate`; `uuid_seed` drives the fresh-id supply;
`sent` accumulates attempted `sendto` calls as (destination key, payload)
pairs (send errors are swallowed by the source, and transport-level
host resolution of the destination is not modelled). -/
structure NodeState where
  peer_host : String
  peer_port : Int
  peer_name : String
  cli_port : Int
  peers : List (String × PeerRec)
  gossip_cache : List (String × Int)
  consensus_map : List (String × ConsensusState)
  word_list : List String
  lie_mode : Bool
  lies : List Bool
  uuid_seed : Nat
  sent : List (String × OutMsg)
  logs : List LogEvent
deriving Repr, DecidableEq

/-- `PeerNode.add_peer` (node.py lines 53-63); `resolveHost` is the injected
DNS resolver, `now` the wall clock.  A falsy (`None` or empty) name falls
back per `name or key` / `if name:`. -/
def NodeState.add_peer (resolveHost : String → String) (s : NodeState) (host : String)
    (port : Int) (name : Option String) (now : Int) : NodeState :=
  let key := peer_key (resolveHost host) port
  let nameOr : String → String := fun dflt =>
    match name with
    | some n => if n = "" then dflt else n
    | none => dflt
  match mapLookup s.peers key with
  | none =>
      let newRec : PeerRec :=
        { host := resolveHost host, port := port, name := nameOr key, lastSeen := now }
      { s with peers := dictInsert s.peers key newRec }
  | some r =>
      let newRec : PeerRec := { r with lastSeen := now, name := nameOr r.name }
      { s with peers := dictInsert s.peers key newRec }

/-- `PeerNode.known_peers` (node.py lines 65-66). -/
def NodeState.known_peers (s : NodeState) : List (String × Int) :=
  s.peers.map (fun e => (e.2.host, e.2.port))

/-- `ConsensusEngine.choose_value` (consensus.py lines 18-23): honest unless
lying, in which case the next oracle draw decides between the sentinel
`"faulty_attack"` and the honest value (an exhausted oracle models draws
above the rate). -/
def choose_value (s : NodeState) (honest : String) : String × NodeState :=
  if s.lie_mode = false then (honest, s)
  else
    match s.lies with
    | b :: rest => ((if b then "faulty_attack" else honest), { s with lies := rest })
    | [] => (honest, s)

/-- `ConsensusState.__init__` applied to a CONSENSUS wire message; the
message's `default_value` key is ignored because `__init__` never reads it. -/
def ConsensusState.ofMsg (msg : CMsg) : ConsensusState where
  id := msg.id
  omlevel := msg.omlevel
  initiator := msg.initiator
  peers := msg.peers
  index := msg.index
  value := msg.value
  parentid := msg.parentid
  reporter := msg.reporter
  reports := []
  resolved := none
  subconsensus_launched := []

/-- `ConsensusEngine.get_consensus` (consensus.py lines 26-30). -/
def get_consensus (s : NodeState) (msg : CMsg) : NodeState × ConsensusState :=
  match mapLookup s.consensus_map msg.id with
  | some c => (s, c)
  | none =>
      let c := ConsensusState.ofMsg msg
      ({ s with consensus_map := dictInsert s.consensus_map msg.id c }, c)

/-- Python `a or b` on strings: the first truthy (non-empty) operand. -/
def pyOr (a b : String) : String :=
  if a = "" then b else a

/-- The root branch of `propagate_result_upwards` (consensus.py lines 46-54):
`if 0 <= consensus.index < len(self.node.word_list)` commit the result. -/
def commitRoot (s : NodeState) (idx : Int) (result : String) : NodeState :=
  if 0 ≤ idx ∧ idx < (s.word_list.length : Int) then
    { s with word_list := s.word_list.set idx.toNat result }
  else s

/-- `ConsensusEngine.propagate_result_upwards` (consensus.py lines 32-54).
The Python recursion is unbounded; `fuel` bounds it, and exhausted fuel
returns the state built so far, exactly as a Python `RecursionError` aborts
the handler while keeping in-place mutations.  `if consensus.parentid:`
treats `None` and `""` as falsy; `parent_reporter` is
`consensus.reporter or reporter or consensus.initiator`. -/
def propagate_result_upwards : Nat → NodeState → String → String → String → NodeState
  | 0, s, _, _, _ => s
  | fuel + 1, s, cid, reporter, value =>
    match mapLookup s.consensus_map cid with
    | none => s
    | some c =>
      let c1 := c.record_report reporter value
      let s1 := { s with consensus_map := dictInsert s.consensus_map cid c1 }
      if c1.is_complete then
        let result := (c1.decide).1
        let c2 := (c1.decide).2
        let s2 := { s1 with consensus_map := dictInsert s1.consensus_map cid c2 }
        match result with
        | none => s2
        | some result =>
          match c2.parentid with
          | some pid =>
              if pid = "" then commitRoot s2 c2.index result
              else
                let parent_reporter := pyOr (pyOr (c2.reporter.getD "") reporter) c2.initiator
                match mapLookup s2.consensus_map pid with
                | some _ => propagate_result_upwards fuel s2 pid parent_reporter result
                | none => s2
          | none => commitRoot s2 c2.index result
      else s1

/-- `ConsensusEngine.launch_subconsensus` (consensus.py lines 56-88).  After
the gate and the `subconsensus_launched` update, with a non-empty remaining
peer list the source draws a fresh id and a fault-injected value and then
builds `sub_msg`, whose `"default_value": parent.default_value` entry
(line 76) reads an attribute `ConsensusState.__init__` never sets: the
resulting `AttributeError` aborts the datagram handler with the mutations so
far kept.  The child store, the sends and the final self-report propagation
(lines 78-88) are therefore unreachable. -/
def launch_subconsensus (s : NodeState) (parent_msg : CMsg)
    (sender_key received_value : String) : NodeState :=
  let sp := get_consensus s parent_msg
  let s1 := sp.1
  let parent := sp.2
  if sender_key ∈ parent.subconsensus_launched ∨ parent.omlevel ≤ 0 then s1
  else
    let parent1 :=
      { parent with subconsensus_launched := parent.subconsensus_launched ++ [sender_key] }
    let s2 := { s1 with consensus_map := dictInsert s1.consensus_map parent_msg.id parent1 }
    let peers := parent.peers.filter (fun p => p ≠ sender_key)
    if peers = [] then s2
    else
      let s3 := { s2 with uuid_seed := s2.uuid_seed + 1 }
      (choose_value s3 received_value).2

/-- `ConsensusEngine.handle_consensus` (consensus.py lines 90-99). -/
def handle_consensus (resolveHost : String → String) (fuel : Nat) (s : NodeState)
    (msg : CMsg) (addr : String × Int) (now : Int) : NodeState :=
  let sender := peer_key addr.1 addr.2
  let s1 := s.add_peer resolveHost addr.1 addr.2 (some msg.initiator) now
  let sc := get_consensus s1 msg
  let s2 := sc.1
  let consensus := sc.2
  let value_received := msg.value
  let c1 := consensus.record_report sender value_received
  let s3 := { s2 with consensus_map := dictInsert s2.consensus_map msg.id c1 }
  if consensus.omlevel > 0 then launch_subconsensus s3 msg sender value_received
  else propagate_result_upwards fuel s3 consensus.id sender value_received

/-- `ConsensusEngine.start_root_consensus` (consensus.py lines 101-144).
`list({self_key} | set(peers.keys()))` is a Python set whose iteration order
is unspecified; it is modelled canonically with the self key in front when
not already a dict key. -/
def start_root_consensus (s : NodeState) (index : Int) (value : String) : NodeState :=
  let self_key := peer_key s.peer_host s.peer_port
  let peers :=
    if self_key ∈ s.peers.map Prod.fst then s.peers.map Prod.fst
    else self_key :: s.peers.map Prod.fst
  let peer_count := peers.length
  if peer_count = 0 then { s with logs := s.logs ++ [LogEvent.noPeers] }
  else
    let m : Int := ((peer_count : Int) - 1) / 3
    let cid := uuidGen s.uuid_seed
    let s1 := { s with uuid_seed := s.uuid_seed + 1 }
    let sv := choose_value s1 value
    let self_value := sv.1
    let s2 := sv.2
    let msg : CMsg :=
      { command := "CONSENSUS", id := cid, omlevel := m, initiator := self_key,
        peers := peers, index := index, value := self_value, parentid := none,
        reporter := none, default_value := some value }
    let state := ConsensusState.ofMsg msg
    let s3 := { s2 with consensus_map := dictInsert s2.consensus_map cid state }
    let s4 :=
      if 0 ≤ index ∧ index < (s3.word_list.length : Int) then
        { s3 with word_list := s3.word_list.set index.toNat self_value }
      else s3
    let state1 := state.record_report self_key self_value
    let s5 := { s4 with consensus_map := dictInsert s4.consensus_map cid state1 }
    let s6 := peers.foldl (fun acc peer =>
      if peer = self_key then acc
      else
        let pv := choose_value acc value
        let peer_msg := { msg with value := pv.1 }
        { pv.2 with sent := pv.2.sent ++ [(peer, OutMsg.consensus peer_msg)] }) s5
    { s6 with logs := s6.logs ++ [LogEvent.startedConsensus cid index self_value m] }

/-! ## Gossip engine (`src/omnode/gossip.py`) -/

/-- `GossipEngine.mark_gossip_seen` (gossip.py lines 14-20): purge entries
of age 300 s or more, report whether the id survives, and insert it at the
current time if not. -/
def mark_gossip_seen (s : NodeState) (gid : String) (now : Int) : Bool × NodeState :=
  let cache := s.gossip_cache.filter (fun kv => now - kv.2 < 300)
  if (mapLookup cache gid).isSome then (true, { s with gossip_cache := cache })
  else (false, { s with gossip_cache := dictInsert cache gid now })

/-- `GossipEngine.forward_gossip` (gossip.py lines 39-47); `shuffle` is the
`random.shuffle` oracle. -/
def forward_gossip (shuffle : List (String × Int) → List (String × Int))
    (s : NodeState) (msg : GMsg) (exclude : String × Int) : NodeState :=
  let peers := (shuffle s.known_peers).filter (fun p => p ≠ exclude)
  (peers.take 5).foldl
    (fun acc p => { acc with sent := acc.sent ++ [(peer_key p.1 p.2, OutMsg.gossip msg)] }) s

/-- `GossipEngine.send_gossip_reply` (gossip.py lines 63-75); the `name`
parameter of the source is unused by its body and omitted. -/
def send_gossip_reply (s : NodeState) (host : String) (port : Int) : NodeState :=
  let reply : GMsg :=
    { command := "GOSSIP_REPLY", host := some s.peer_host, port := some s.peer_port,
      name := some s.peer_name, id := uuidGen s.uuid_seed, cliPort := some s.cli_port }
  { s with uuid_seed := s.uuid_seed + 1
           sent := s.sent ++ [(peer_key host port, OutMsg.gossipReply reply)] }

/-- `GossipEngine.handle_gossip` (gossip.py lines 49-61).  `existing` is
checked against the payload-derived key before `add_peer` runs. -/
def handle_gossip (resolveHost : String → String)
    (shuffle : List (String × Int) → List (String × Int)) (s : NodeState)
    (msg : GMsg) (addr : String × Int) (now : Int) : NodeState :=
  let gid := msg.id
  let ms := mark_gossip_seen s gid now
  let seen := ms.1
  let s1 := ms.2
  let peer_name := msg.name
  let host := msg.host.getD addr.1
  let port := msg.port.getD addr.2
  let key := peer_key host port
  let existing := (mapLookup s1.peers key).isSome
  let s2 := s1.add_peer resolveHost host port peer_name now
  let s3 := if seen = false then forward_gossip shuffle s2 msg addr else s2
  if existing = false ∨ msg.command = "GOSSIP" then send_gossip_reply s3 addr.1 addr.2
  else s3

/-! ## Support lemmas about the engine -/

theorem record_report_self (st : ConsensusState) (r v : String)
    (h : mapLookup st.reports r = some v) : st.record_report r v = st := by
  unfold ConsensusState.record_report
  rw [dictInsert_lookup_eq _ _ _ h]

theorem mem_keys_dictInsert {α : Type} (l : List (String × α)) (k k' : String) (v : α)
    (h : k' ∈ l.map Prod.fst) : k' ∈ (dictInsert l k v).map Prod.fst := by
  induction l with
  | nil => simp at h
  | cons hd tl ih =>
      by_cases hk : hd.1 = k
      · simpa [dictInsert, hk] using h
      · simp only [dictInsert, if_neg hk, List.map_cons, List.mem_cons] at h ⊢
        rcases h with h' | h'
        · exact Or.inl h'
        · exact Or.inr (ih h')

theorem is_complete_congr (st₁ st₂ : ConsensusState) (hp : st₂.peers = st₁.peers)
    (hr : st₂.reports = st₁.reports) : st₂.is_complete = st₁.is_complete := by
  unfold ConsensusState.is_complete
  rw [hp, hr]

theorem record_preserves_complete (st : ConsensusState) (r v : String)
    (h : st.is_complete = true) : (st.record_report r v).is_complete = true := by
  simp only [ConsensusState.is_complete, ConsensusState.record_report,
    List.all_eq_true] at h ⊢
  intro p hp
  have hmem : p ∈ st.reports.map Prod.fst := by simpa using h p hp
  simpa using mem_keys_dictInsert _ _ _ _ hmem

theorem decide_fst_isSome (st : ConsensusState) (h : st.reports ≠ []) :
    ((st.decide).1).isSome := by
  rcases hres : st.resolved with _ | r
  · obtain ⟨w, hw, -⟩ := ConsensusState.decide_of_ne_empty st hres h
    simp [hw]
  · simp [ConsensusState.decide_of_resolved st r hres]

theorem decide_snd_parentid (st : ConsensusState) :
    ((st.decide).2).parentid = st.parentid := by
  rw [ConsensusState.decide_snd_eq]

theorem decide_snd_reports (st : ConsensusState) :
    ((st.decide).2).reports = st.reports := by
  rw [ConsensusState.decide_snd_eq]

theorem decide_snd_peers (st : ConsensusState) :
    ((st.decide).2).peers = st.peers := by
  rw [ConsensusState.decide_snd_eq]

theorem decide_snd_index (st : ConsensusState) :
    ((st.decide).2).index = st.index := by
  rw [ConsensusState.decide_snd_eq]

theorem decide_snd_initiator (st : ConsensusState) :
    ((st.decide).2).initiator = st.initiator := by
  rw [ConsensusState.decide_snd_eq]

theorem decide_snd_reporter (st : ConsensusState) :
    ((st.decide).2).reporter = st.reporter := by
  rw [ConsensusState.decide_snd_eq]

theorem decide_snd_omlevel (st : ConsensusState) :
    ((st.decide).2).omlevel = st.omlevel := by
  rw [ConsensusState.decide_snd_eq]

theorem decide_snd_id (st : ConsensusState) :
    ((st.decide).2).id = st.id := by
  rw [ConsensusState.decide_snd_eq]

theorem commitRoot_consensus_map (s : NodeState) (idx : Int) (r : String) :
    (commitRoot s idx r).consensus_map = s.consensus_map := by
  unfold commitRoot
  split <;> rfl

theorem commitRoot_gossip_frame (s : NodeState) (idx : Int) (r : String) :
    (commitRoot s idx r).sent = s.sent ∧ (commitRoot s idx r).uuid_seed = s.uuid_seed ∧
      (commitRoot s idx r).peers = s.peers := by
  unfold commitRoot
  split <;> exact ⟨rfl, rfl, rfl⟩

theorem commitRoot_idem (s : NodeState) (idx : Int) (r : String) :
    commitRoot (commitRoot s idx r) idx r = commitRoot s idx r := by
  unfold commitRoot
  by_cases h : 0 ≤ idx ∧ idx < (s.word_list.length : Int)
  · rw [if_pos h]
    have hlen : ((s.word_list.set idx.toNat r).length : Int) = (s.word_list.length : Int) := by
      simp
    simp only [hlen, if_pos h, List.set_set]
  · rw [if_neg h, if_neg h]

/-- The skeleton of a consensus store: which ids are present and their
parent links. -/
def skel (m : List (String × ConsensusState)) (c : String) : Option (Option String) :=
  (mapLookup m c).map (fun i => i.parentid)

theorem skel_dictInsert (m : List (String × ConsensusState)) (k : String)
    (c newc : ConsensusState) (hc : mapLookup m k = some c)
    (hp : newc.parentid = c.parentid) (c' : String) :
    skel (dictInsert m k newc) c' = skel m c' := by
  unfold skel
  by_cases h : c' = k
  · subst h
    rw [mapLookup_dictInsert_self, hc]
    simp [hp]
  · rw [mapLookup_dictInsert_ne _ _ _ _ h]

/-- Acyclicity of parent links, witnessed by a rank function: whenever an
instance's (truthy) `parentid` is present in the store, the parent has
strictly smaller rank. -/
def ParentRanked (m : List (String × ConsensusState)) (rk : String → Nat) : Prop :=
  ∀ c inst p, mapLookup m c = some inst → inst.parentid = some p → p ≠ "" →
    ∀ pinst, mapLookup m p = some pinst → rk p < rk c

/-- Executable check for `ParentRanked`. -/
def parentRankedB (m : List (String × ConsensusState)) (rk : String → Nat) : Bool :=
  m.all (fun e =>
    match e.2.parentid with
    | some p =>
        if p = "" then true
        else
          match mapLookup m p with
          | some _ => decide (rk p < rk e.1)
          | none => true
    | none => true)

theorem parentRankedB_imp (m : List (String × ConsensusState)) (rk : String → Nat)
    (h : parentRankedB m rk = true) : ParentRanked m rk := by
  intro c inst p hc hp hne pinst hpi
  have hmem := mapLookup_mem _ _ _ hc
  have := (List.all_eq_true.mp h) _ hmem
  simp only [hp, hne, if_neg hne, hpi] at this
  exact of_decide_eq_true this

theorem parentRanked_of_skel (m₁ m₂ : List (String × ConsensusState)) (rk : String → Nat)
    (hs : ∀ c, skel m₁ c = skel m₂ c) (h : ParentRanked m₂ rk) : ParentRanked m₁ rk := by
  intro c inst p hc hp hne pinst hpi
  have h1 : skel m₂ c = some (some p) := by
    rw [← hs]
    unfold skel
    rw [hc]
    simp [hp]
  have h2 : (mapLookup m₂ p).isSome := by
    have hsk : skel m₂ p = (mapLookup m₁ p).map (fun i => i.parentid) := (hs p).symm
    rw [hpi] at hsk
    unfold skel at hsk
    cases hm : mapLookup m₂ p with
    | none => rw [hm] at hsk; simp at hsk
    | some x => simp [hm]
  obtain ⟨inst2, hinst2, hpid2⟩ : ∃ inst2, mapLookup m₂ c = some inst2 ∧ inst2.parentid = some p := by
    unfold skel at h1
    cases hm : mapLookup m₂ c with
    | none => rw [hm] at h1; simp at h1
    | some x =>
        rw [hm] at h1
        simp at h1
        exact ⟨x, rfl, h1⟩
  obtain ⟨pinst2, hpinst2⟩ := Option.isSome_iff_exists.mp h2
  exact h c inst2 p hinst2 hpid2 hne pinst2 hpinst2

/-- Executable check that every stored instance's `id` field equals its key
(true of every instance the engine itself stores). -/
def keyConsistentB (m : List (String × ConsensusState)) : Bool :=
  m.all (fun e => e.2.id = e.1)

theorem keyConsistent_lookup (m : List (String × ConsensusState)) (k : String)
    (c : ConsensusState) (h : keyConsistentB m = true) (hc : mapLookup m k = some c) :
    c.id = k := by
  have hmem := mapLookup_mem _ _ _ hc
  have := (List.all_eq_true.mp h) _ hmem
  exact of_decide_eq_true this

/-- `propagate_result_upwards` never adds or removes instances and never
rewrites a parent link: the store skeleton is invariant. -/
theorem propagate_skel (fuel : Nat) :
    ∀ (s : NodeState) (cid r v : String) (c' : String),
      skel (propagate_result_upwards fuel s cid r v).consensus_map c' =
        skel s.consensus_map c' := by
  induction fuel with
  | zero => intro s cid r v c'; rfl
  | succ n ih =>
      intro s cid r v c'
      simp only [propagate_result_upwards]
      split
      · rfl
      · rename_i c hc
        have hpar1 : (c.record_report r v).parentid = c.parentid := rfl
        have hskel1 : ∀ x, skel (dictInsert s.consensus_map cid (c.record_report r v)) x =
            skel s.consensus_map x :=
          fun x => skel_dictInsert _ _ _ _ hc hpar1 x
        have hl1 : mapLookup (dictInsert s.consensus_map cid (c.record_report r v)) cid =
            some (c.record_report r v) := mapLookup_dictInsert_self _ _ _
        have hskel2 : ∀ x, skel (dictInsert
            (dictInsert s.consensus_map cid (c.record_report r v)) cid
            ((c.record_report r v).decide).2) x = skel s.consensus_map x := by
          intro x
          rw [skel_dictInsert _ _ _ _ hl1 (decide_snd_parentid _) x, hskel1 x]
        split
        · split
          · exact hskel2 c'
          · split
            · split
              · rw [commitRoot_consensus_map]
                exact hskel2 c'
              · split
                · rw [ih]
                  exact hskel2 c'
                · exact hskel2 c'
            · rw [commitRoot_consensus_map]
              exact hskel2 c'
        · exact hskel1 c'

/-- A `resolved` value, once set on any instance, survives any
`propagate_result_upwards` call: no operation ever unsets or changes it. -/
theorem propagate_preserves_resolved (fuel : Nat) :
    ∀ (s : NodeState) (cid r v c : String) (inst : ConsensusState) (r0 : String),
      mapLookup s.consensus_map c = some inst → inst.resolved = some r0 →
      ∃ inst', mapLookup (propagate_result_upwards fuel s cid r v).consensus_map c =
        some inst' ∧ inst'.resolved = some r0 := by
  induction fuel with
  | zero => intro s cid r v c inst r0 h hres; exact ⟨inst, h, hres⟩
  | succ n ih =>
      intro s cid r v c inst r0 h hres
      simp only [propagate_result_upwards]
      split
      · exact ⟨inst, h, hres⟩
      · rename_i cc hc
        by_cases hkc : c = cid
        · subst hkc
          have hccinst : cc = inst := by
            rw [h] at hc
            exact (Option.some.inj hc).symm
          subst hccinst
          have hres1 : (cc.record_report r v).resolved = some r0 := hres
          have hdec := ConsensusState.decide_of_resolved (cc.record_report r v) r0 hres1
          split
          · split
            · rename_i heq
              rw [hdec] at heq
              simp at heq
            · split
              · split
                · rw [commitRoot_consensus_map]
                  exact ⟨_, mapLookup_dictInsert_self _ _ _, by rw [hdec]; exact hres1⟩
                · split
                  · exact ih _ _ _ _ c _ r0 (mapLookup_dictInsert_self _ _ _)
                      (by rw [hdec]; exact hres1)
                  · exact ⟨_, mapLookup_dictInsert_self _ _ _, by rw [hdec]; exact hres1⟩
              · rw [commitRoot_consensus_map]
                exact ⟨_, mapLookup_dictInsert_self _ _ _, by rw [hdec]; exact hres1⟩
          · exact ⟨_, mapLookup_dictInsert_self _ _ _, hres1⟩
        · have h1 : mapLookup (dictInsert s.consensus_map cid (cc.record_report r v)) c =
              some inst := by
            rw [mapLookup_dictInsert_ne _ _ _ _ hkc]
            exact h
          have h2 : mapLookup (dictInsert
              (dictInsert s.consensus_map cid (cc.record_report r v)) cid
              ((cc.record_report r v).decide).2) c = some inst := by
            rw [mapLookup_dictInsert_ne _ _ _ _ hkc]
            exact h1
          split
          · split
            · exact ⟨inst, h2, hres⟩
            · split
              · split
                · rw [commitRoot_consensus_map]
                  exact ⟨inst, h2, hres⟩
                · split
                  · exact ih _ _ _ _ c inst r0 h2 hres
                  · exact ⟨inst, h2, hres⟩
              · rw [commitRoot_consensus_map]
                exact ⟨inst, h2, hres⟩
          · exact ⟨inst, h1, hres⟩

theorem commitRoot_word_congr (S T : NodeState) (idx : Int) (r : String)
    (h : S.word_list = T.word_list) :
    (commitRoot S idx r).word_list = (commitRoot T idx r).word_list := by
  unfold commitRoot
  rw [h]
  split
  · rfl
  · exact h

/-- `propagate_result_upwards` starting at `cid` only touches `cid` and its
ancestors; under `ParentRanked` every instance of rank above `rk cid` is
left untouched. -/
theorem propagate_frame_rank (rk : String → Nat) (fuel : Nat) :
    ∀ (s : NodeState) (cid r v : String), ParentRanked s.consensus_map rk →
      ∀ c', rk cid < rk c' →
        mapLookup (propagate_result_upwards fuel s cid r v).consensus_map c' =
          mapLookup s.consensus_map c' := by
  induction fuel with
  | zero => intro s cid r v _ c' _; rfl
  | succ n ih =>
      intro s cid r v hwf c' hlt
      have hne : c' ≠ cid := by
        intro hcontra
        subst hcontra
        exact lt_irrefl _ hlt
      simp only [propagate_result_upwards]
      split
      · rfl
      · rename_i cc hc
        have h1 : mapLookup (dictInsert s.consensus_map cid (cc.record_report r v)) c' =
            mapLookup s.consensus_map c' :=
          mapLookup_dictInsert_ne _ _ _ _ hne
        have h2 : mapLookup (dictInsert
            (dictInsert s.consensus_map cid (cc.record_report r v)) cid
            ((cc.record_report r v).decide).2) c' = mapLookup s.consensus_map c' := by
          rw [mapLookup_dictInsert_ne _ _ _ _ hne]
          exact h1
        have hskel2 : ∀ x, skel (dictInsert
            (dictInsert s.consensus_map cid (cc.record_report r v)) cid
            ((cc.record_report r v).decide).2) x = skel s.consensus_map x := by
          intro x
          rw [skel_dictInsert _ _ _ _ (mapLookup_dictInsert_self _ _ _)
            (decide_snd_parentid _) x]
          exact skel_dictInsert s.consensus_map cid cc (cc.record_report r v) hc rfl x
        split
        · split
          · exact h2
          · split
            · rename_i xp pid hpid
              split
              · rw [commitRoot_consensus_map]
                exact h2
              · rename_i hpe
                split
                · rename_i xv val hval
                  have hwf2 : ParentRanked (dictInsert
                      (dictInsert s.consensus_map cid (cc.record_report r v)) cid
                      ((cc.record_report r v).decide).2) rk :=
                    parentRanked_of_skel _ _ rk hskel2 hwf
                  have hplt : rk pid < rk cid :=
                    hwf2 cid _ pid (mapLookup_dictInsert_self _ _ _) hpid hpe val hval
                  rw [ih _ pid _ _ hwf2 c' (lt_trans hplt hlt)]
                  exact h2
                · exact h2
            · rw [commitRoot_consensus_map]
              exact h2
        · exact h1

/-- The consensus-relevant part of `propagate_result_upwards` depends only on
the consensus store and the word array. -/
theorem propagate_proj_congr (fuel : Nat) :
    ∀ (s t : NodeState) (cid r v : String),
      s.consensus_map = t.consensus_map → s.word_list = t.word_list →
      (propagate_result_upwards fuel s cid r v).consensus_map =
          (propagate_result_upwards fuel t cid r v).consensus_map ∧
        (propagate_result_upwards fuel s cid r v).word_list =
          (propagate_result_upwards fuel t cid r v).word_list := by
  induction fuel with
  | zero => intro s t cid r v hmap hword; exact ⟨hmap, hword⟩
  | succ n ih =>
      intro s t cid r v hmap hword
      simp only [propagate_result_upwards]
      rw [hmap, hword]
      split
      · exact ⟨hmap, hword⟩
      · split
        · split
          · exact ⟨rfl, rfl⟩
          · split
            · split
              · refine ⟨?_, ?_⟩
                · rw [commitRoot_consensus_map, commitRoot_consensus_map]
                · exact commitRoot_word_congr _ _ _ _ rfl
              · split
                · exact ih _ _ _ _ _ rfl rfl
                · exact ⟨rfl, rfl⟩
            · refine ⟨?_, ?_⟩
              · rw [commitRoot_consensus_map, commitRoot_consensus_map]
              · exact commitRoot_word_congr _ _ _ _ rfl
        · exact ⟨rfl, rfl⟩

/-- Replaying a `propagate_result_upwards` call on its own result is a no-op
(acyclic parent links assumed): the report re-insert rewrites the same value,
`decide` returns the stored resolution, and the same chain of ancestors
re-records the same pairs. -/
theorem propagate_idem (rk : String → Nat) (fuel : Nat) :
    ∀ (s : NodeState) (cid r v : String), ParentRanked s.consensus_map rk →
      propagate_result_upwards fuel (propagate_result_upwards fuel s cid r v) cid r v =
        propagate_result_upwards fuel s cid r v := by
  induction fuel with
  | zero => intros; rfl
  | succ n ih =>
      intro s cid r v hwf
      cases hc : mapLookup s.consensus_map cid with
      | none =>
          have hinner : propagate_result_upwards (n + 1) s cid r v = s := by
            simp only [propagate_result_upwards, hc]
          rw [hinner]
          exact hinner
      | some c =>
          have hrep1 : mapLookup (c.record_report r v).reports r = some v :=
            mapLookup_dictInsert_self _ _ _
          by_cases hcomp : (c.record_report r v).is_complete = true
          · have hne : (c.record_report r v).reports ≠ [] := dictInsert_ne_nil _ _ _
            obtain ⟨res, hfst⟩ := Option.isSome_iff_exists.mp (decide_fst_isSome _ hne)
            have hsndres : (((c.record_report r v).decide).2).resolved = some res := by
              rw [ConsensusState.decide_snd_resolved, hfst]
            have hrep2 : mapLookup (((c.record_report r v).decide).2).reports r = some v := by
              rw [decide_snd_reports]
              exact hrep1
            have hrecself : (((c.record_report r v).decide).2).record_report r v =
                ((c.record_report r v).decide).2 :=
              record_report_self _ _ _ hrep2
            have hcomp2 : (((c.record_report r v).decide).2).is_complete = true := by
              rw [is_complete_congr (c.record_report r v) (((c.record_report r v).decide).2)
                (decide_snd_peers _) (decide_snd_reports _)]
              exact hcomp
            have hdec2 := ConsensusState.decide_of_resolved _ res hsndres
            have hskel2 : ∀ x, skel (dictInsert
                (dictInsert s.consensus_map cid (c.record_report r v)) cid
                ((c.record_report r v).decide).2) x = skel s.consensus_map x := by
              intro x
              rw [skel_dictInsert _ _ _ _ (mapLookup_dictInsert_self _ _ _)
                (decide_snd_parentid _) x]
              exact skel_dictInsert s.consensus_map cid c (c.record_report r v) hc rfl x
            have hl2 : mapLookup (dictInsert
                (dictInsert s.consensus_map cid (c.record_report r v)) cid
                ((c.record_report r v).decide).2) cid = some ((c.record_report r v).decide).2 :=
              mapLookup_dictInsert_self _ _ _
            cases hp : (((c.record_report r v).decide).2).parentid with
            | none =>
                have hlcr : mapLookup (commitRoot { s with consensus_map := dictInsert (dictInsert s.consensus_map cid (c.record_report r v)) cid ((c.record_report r v).decide).2 } (((c.record_report r v).decide).2).index res).consensus_map cid = some ((c.record_report r v).decide).2 := by
                  rw [commitRoot_consensus_map]
                  exact hl2
                simp only [propagate_result_upwards, hc, if_pos hcomp, hfst, hp,
                  hlcr, hrecself, if_pos hcomp2, hdec2,
                  dictInsert_lookup_eq _ _ _ hlcr]
                exact commitRoot_idem _ _ _
            | some pid =>
                by_cases hpe : pid = ""
                · have hlcr : mapLookup (commitRoot { s with consensus_map := dictInsert (dictInsert s.consensus_map cid (c.record_report r v)) cid ((c.record_report r v).decide).2 } (((c.record_report r v).decide).2).index res).consensus_map cid = some ((c.record_report r v).decide).2 := by
                    rw [commitRoot_consensus_map]
                    exact hl2
                  simp only [propagate_result_upwards, hc, if_pos hcomp, hfst, hp, hpe,
                    eq_self_iff_true, if_true, hlcr, hrecself, if_pos hcomp2,
                    hdec2, dictInsert_lookup_eq _ _ _ hlcr]
                  exact commitRoot_idem _ _ _
                · cases hlp : mapLookup (dictInsert (dictInsert s.consensus_map cid (c.record_report r v)) cid ((c.record_report r v).decide).2) pid with
                  | none =>
                      simp only [propagate_result_upwards, hc, if_pos hcomp, hfst, hp,
                        if_neg hpe, hlp, hl2, hrecself, if_pos hcomp2, hdec2,
                        dictInsert_lookup_eq _ _ _ hl2]
                  | some pc =>
                      have hwf2 : ParentRanked (dictInsert (dictInsert s.consensus_map cid (c.record_report r v)) cid ((c.record_report r v).decide).2) rk :=
                        parentRanked_of_skel _ _ rk hskel2 hwf
                      have hplt : rk pid < rk cid := hwf2 cid _ pid hl2 hp hpe pc hlp
                      have hlookF : mapLookup (propagate_result_upwards n { s with consensus_map := dictInsert (dictInsert s.consensus_map cid (c.record_report r v)) cid ((c.record_report r v).decide).2 } pid (pyOr (pyOr ((((c.record_report r v).decide).2).reporter.getD "") r) (((c.record_report r v).decide).2).initiator) res).consensus_map cid = some ((c.record_report r v).decide).2 := by
                        rw [propagate_frame_rank rk n _ pid _ _ hwf2 cid hplt]
                        exact hl2
                      have hlpF : ∃ pv, mapLookup (propagate_result_upwards n { s with consensus_map := dictInsert (dictInsert s.consensus_map cid (c.record_report r v)) cid ((c.record_report r v).decide).2 } pid (pyOr (pyOr ((((c.record_report r v).decide).2).reporter.getD "") r) (((c.record_report r v).decide).2).initiator) res).consensus_map pid = some pv := by
                        have hsk := propagate_skel n { s with consensus_map := dictInsert (dictInsert s.consensus_map cid (c.record_report r v)) cid ((c.record_report r v).decide).2 } pid (pyOr (pyOr ((((c.record_report r v).decide).2).reporter.getD "") r) (((c.record_report r v).decide).2).initiator) res pid
                        unfold skel at hsk
                        rw [show mapLookup ({ s with consensus_map := dictInsert (dictInsert s.consensus_map cid (c.record_report r v)) cid ((c.record_report r v).decide).2 } : NodeState).consensus_map pid = some pc from hlp] at hsk
                        cases hm : mapLookup (propagate_result_upwards n { s with consensus_map := dictInsert (dictInsert s.consensus_map cid (c.record_report r v)) cid ((c.record_report r v).decide).2 } pid (pyOr (pyOr ((((c.record_report r v).decide).2).reporter.getD "") r) (((c.record_report r v).decide).2).initiator) res).consensus_map pid with
                        | none => rw [hm] at hsk; simp at hsk
                        | some pv => exact ⟨pv, rfl⟩
                      obtain ⟨pv, hpv⟩ := hlpF
                      simp only [propagate_result_upwards, hc, if_pos hcomp, hfst, hp,
                        if_neg hpe, hlp, hl2, hrecself, if_pos hcomp2, hdec2, hlookF, hpv,
                        dictInsert_lookup_eq _ _ _ hlookF]
                      exact ih ({ s with consensus_map := dictInsert (dictInsert s.consensus_map cid (c.record_report r v)) cid ((c.record_report r v).decide).2 }) pid (pyOr (pyOr ((((c.record_report r v).decide).2).reporter.getD "") r) (((c.record_report r v).decide).2).initiator) res hwf2
          · have hl1 : mapLookup (dictInsert s.consensus_map cid (c.record_report r v)) cid
                = some (c.record_report r v) := mapLookup_dictInsert_self _ _ _
            have hrecself1 : (c.record_report r v).record_report r v = c.record_report r v :=
              record_report_self _ _ _ hrep1
            simp only [propagate_result_upwards, hc, if_neg hcomp, hl1, hrecself1,
              dictInsert_lookup_eq _ _ _ hl1]

theorem dictInsert_dictInsert {α : Type} (l : List (String × α)) (k : String) (v v' : α) :
    dictInsert (dictInsert l k v) k v' = dictInsert l k v' := by
  induction l with
  | nil => simp [dictInsert]
  | cons hd tl ih =>
      by_cases h : hd.1 = k <;> simp [dictInsert, h, ih]

theorem add_peer_consensus_map (resolveHost : String → String) (s : NodeState)
    (host : String) (port : Int) (name : Option String) (now : Int) :
    (s.add_peer resolveHost host port name now).consensus_map = s.consensus_map := by
  simp only [NodeState.add_peer]
  split <;> split <;> rfl

theorem add_peer_word_list (resolveHost : String → String) (s : NodeState)
    (host : String) (port : Int) (name : Option String) (now : Int) :
    (s.add_peer resolveHost host port name now).word_list = s.word_list := by
  simp only [NodeState.add_peer]
  split <;> split <;> rfl

theorem choose_value_snd (s : NodeState) (honest : String) :
    (choose_value s honest).2 = { s with lies := ((choose_value s honest).2).lies } := by
  unfold choose_value
  split
  · rfl
  · split <;> rfl

theorem choose_value_consensus_map (s : NodeState) (honest : String) :
    ((choose_value s honest).2).consensus_map = s.consensus_map := by
  rw [choose_value_snd]

theorem choose_value_word_list (s : NodeState) (honest : String) :
    ((choose_value s honest).2).word_list = s.word_list := by
  rw [choose_value_snd]

/-- When the start instance already holds the report `(r, v)`,
`propagate_result_upwards` leaves an instance at `cid` that still holds it,
with the same `omlevel` and `id`. -/
theorem propagate_at_start (rk : String → Nat) (fuel : Nat) :
    ∀ (s : NodeState) (cid r v : String) (c : ConsensusState),
      ParentRanked s.consensus_map rk →
      mapLookup s.consensus_map cid = some c → mapLookup c.reports r = some v →
      ∃ c', mapLookup (propagate_result_upwards fuel s cid r v).consensus_map cid = some c' ∧
        mapLookup c'.reports r = some v ∧ c'.omlevel = c.omlevel ∧ c'.id = c.id := by
  cases fuel with
  | zero => intro s cid r v c _ hc hrep; exact ⟨c, hc, hrep, rfl, rfl⟩
  | succ n =>
      intro s cid r v c hwf hc hrep
      have hrecself : c.record_report r v = c := record_report_self _ _ _ hrep
      have hl1 : dictInsert s.consensus_map cid (c.record_report r v) = s.consensus_map := by
        rw [hrecself]
        exact dictInsert_lookup_eq _ _ _ hc
      by_cases hcomp : (c.record_report r v).is_complete = true
      · have hrep2 : mapLookup ((c.decide).2).reports r = some v := by
          rw [decide_snd_reports]
          exact hrep
        have hl2 : mapLookup (dictInsert (dictInsert s.consensus_map cid (c.record_report r v)) cid ((c.record_report r v).decide).2) cid = some ((c.decide).2) := by
          rw [hrecself]
          exact mapLookup_dictInsert_self _ _ _
        have hskel2 : ∀ x, skel (dictInsert (dictInsert s.consensus_map cid (c.record_report r v)) cid ((c.record_report r v).decide).2) x = skel s.consensus_map x := by
          intro x
          rw [hrecself, dictInsert_lookup_eq _ _ _ hc]
          exact skel_dictInsert s.consensus_map cid c ((c.decide).2) hc (decide_snd_parentid c) x
        have hout : mapLookup (dictInsert (dictInsert s.consensus_map cid (c.record_report r v)) cid ((c.record_report r v).decide).2) cid = some ((c.decide).2) ∧ mapLookup ((c.decide).2).reports r = some v ∧ ((c.decide).2).omlevel = c.omlevel ∧ ((c.decide).2).id = c.id :=
          ⟨hl2, hrep2, decide_snd_omlevel c, decide_snd_id c⟩
        simp only [propagate_result_upwards, hc, if_pos hcomp]
        split
        · exact ⟨_, hout.1, hout.2⟩
        · split
          · rename_i xp pid hpid
            split
            · rw [commitRoot_consensus_map]
              exact ⟨_, hout.1, hout.2⟩
            · rename_i hpe
              split
              · rename_i xv pv hpv
                have hwf2 : ParentRanked (dictInsert (dictInsert s.consensus_map cid (c.record_report r v)) cid ((c.record_report r v).decide).2) rk :=
                  parentRanked_of_skel _ _ rk hskel2 hwf
                have hplt : rk pid < rk cid := by
                  rw [hrecself] at hpid
                  exact hwf2 cid _ pid hl2 hpid hpe pv hpv
                rw [propagate_frame_rank rk n _ pid _ _ hwf2 cid hplt]
                exact ⟨_, hout.1, hout.2⟩
              · exact ⟨_, hout.1, hout.2⟩
          · rw [commitRoot_consensus_map]
            exact ⟨_, hout.1, hout.2⟩
      · simp only [propagate_result_upwards, hc, if_neg hcomp]
        refine ⟨c, ?_, hrep, rfl, rfl⟩
        rw [hrecself]
        exact mapLookup_dictInsert_self _ _ _

theorem handle_consensus_existing (resolveHost : String → String) (fuel : Nat)
    (s : NodeState) (msg : CMsg) (addr : String × Int) (now : Int) (c0 : ConsensusState)
    (hm : mapLookup s.consensus_map msg.id = some c0) :
    handle_consensus resolveHost fuel s msg addr now =
      (let sender := peer_key addr.1 addr.2
       let s1 := s.add_peer resolveHost addr.1 addr.2 (some msg.initiator) now
       let c1 := c0.record_report sender msg.value
       let s3 := { s1 with consensus_map := dictInsert s1.consensus_map msg.id c1 }
       if c0.omlevel > 0 then launch_subconsensus s3 msg sender msg.value
       else propagate_result_upwards fuel s3 c0.id sender msg.value) := by
  have hm1 : mapLookup (s.add_peer resolveHost addr.1 addr.2
      (some msg.initiator) now).consensus_map msg.id = some c0 := by
    rw [add_peer_consensus_map]
    exact hm
  simp only [handle_consensus, get_consensus, hm1]

theorem handle_consensus_fresh (resolveHost : String → String) (fuel : Nat)
    (s : NodeState) (msg : CMsg) (addr : String × Int) (now : Int)
    (hm : mapLookup s.consensus_map msg.id = none) :
    handle_consensus resolveHost fuel s msg addr now =
      (let sender := peer_key addr.1 addr.2
       let s1 := s.add_peer resolveHost addr.1 addr.2 (some msg.initiator) now
       let c1 := (ConsensusState.ofMsg msg).record_report sender msg.value
       let s3 := { s1 with consensus_map := dictInsert s1.consensus_map msg.id c1 }
       if (ConsensusState.ofMsg msg).omlevel > 0 then launch_subconsensus s3 msg sender msg.value
       else propagate_result_upwards fuel s3 (ConsensusState.ofMsg msg).id sender msg.value) := by
  have hm1 : mapLookup (s.add_peer resolveHost addr.1 addr.2
      (some msg.initiator) now).consensus_map msg.id = none := by
    rw [add_peer_consensus_map]
    exact hm
  simp only [handle_consensus, get_consensus, hm1, dictInsert_dictInsert]

/-- What one `launch_subconsensus` call leaves behind: the parent instance
updated in place (possibly with `sender` newly marked launched), reports and
`omlevel` untouched, the word array untouched — and, when the parent's level
is positive, `sender` definitely marked launched afterwards. -/
theorem launch_after (s3 : NodeState) (msg : CMsg) (sender value : String)
    (c1 : ConsensusState) (hl : mapLookup s3.consensus_map msg.id = some c1) :
    ∃ cF, (launch_subconsensus s3 msg sender value).consensus_map =
        dictInsert s3.consensus_map msg.id cF ∧
      (launch_subconsensus s3 msg sender value).word_list = s3.word_list ∧
      cF.reports = c1.reports ∧ cF.omlevel = c1.omlevel ∧ cF.id = c1.id ∧
      cF.resolved = c1.resolved ∧
      (0 < c1.omlevel → sender ∈ cF.subconsensus_launched) := by
  simp only [launch_subconsensus, get_consensus, hl]
  by_cases hgate : sender ∈ c1.subconsensus_launched ∨ c1.omlevel ≤ 0
  · rw [if_pos hgate]
    refine ⟨c1, (dictInsert_lookup_eq _ _ _ hl).symm, rfl, rfl, rfl, rfl, rfl, ?_⟩
    intro hpos
    rcases hgate with hgate | hgate
    · exact hgate
    · omega
  · rw [if_neg hgate]
    by_cases hpeers : c1.peers.filter (fun p => p ≠ sender) = []
    · rw [if_pos hpeers]
      exact ⟨_, rfl, rfl, rfl, rfl, rfl, rfl, fun _ => List.mem_append_right _ (List.mem_singleton.mpr rfl)⟩
    · rw [if_neg hpeers]
      refine ⟨{ c1 with subconsensus_launched := c1.subconsensus_launched ++ [sender] }, ?_, ?_, rfl, rfl, rfl, rfl, fun _ => List.mem_append_right _ (List.mem_singleton.mpr rfl)⟩
      · rw [choose_value_consensus_map]
      · rw [choose_value_word_list]

/-- A `launch_subconsensus` for an already-launched reporter is a no-op. -/
theorem launch_gated (s : NodeState) (msg : CMsg) (sender value : String)
    (cF : ConsensusState) (hl : mapLookup s.consensus_map msg.id = some cF)
    (hmem : sender ∈ cF.subconsensus_launched) :
    launch_subconsensus s msg sender value = s := by
  simp only [launch_subconsensus, get_consensus, hl]
  rw [if_pos (Or.inl hmem)]

/-- Core of the second-delivery no-op argument, phrased for an explicit
`consensus` object `c0` (either the instance already stored at `msg.id` or
the one freshly built from the message). -/
theorem handle_idem_core (resolveHost : String → String) (fuel : Nat) (rk : String → Nat)
    (s : NodeState) (msg : CMsg) (addr : String × Int) (now1 now2 : Int) (c0 : ConsensusState)
    (hid : c0.id = msg.id) (run1 : NodeState)
    (hrun1 : run1 = if 0 < c0.omlevel then
        launch_subconsensus ({ s.add_peer resolveHost addr.1 addr.2 (some msg.initiator) now1 with consensus_map := dictInsert (s.add_peer resolveHost addr.1 addr.2 (some msg.initiator) now1).consensus_map msg.id (c0.record_report (peer_key addr.1 addr.2) msg.value) }) msg (peer_key addr.1 addr.2) msg.value
      else
        propagate_result_upwards fuel ({ s.add_peer resolveHost addr.1 addr.2 (some msg.initiator) now1 with consensus_map := dictInsert (s.add_peer resolveHost addr.1 addr.2 (some msg.initiator) now1).consensus_map msg.id (c0.record_report (peer_key addr.1 addr.2) msg.value) }) c0.id (peer_key addr.1 addr.2) msg.value)
    (hwf : ParentRanked run1.consensus_map rk) :
    (handle_consensus resolveHost fuel run1 msg addr now2).consensus_map = run1.consensus_map ∧
      (handle_consensus resolveHost fuel run1 msg addr now2).word_list = run1.word_list := by
  by_cases hom : 0 < c0.omlevel
  · rw [if_pos hom] at hrun1
    have hlS3 : mapLookup ({ s.add_peer resolveHost addr.1 addr.2 (some msg.initiator) now1 with consensus_map := dictInsert (s.add_peer resolveHost addr.1 addr.2 (some msg.initiator) now1).consensus_map msg.id (c0.record_report (peer_key addr.1 addr.2) msg.value) } : NodeState).consensus_map msg.id = some (c0.record_report (peer_key addr.1 addr.2) msg.value) :=
      mapLookup_dictInsert_self _ _ _
    obtain ⟨cF, hmapF, hwordF, hrepF, homF, hidF, hresF, hlaunchF⟩ :=
      launch_after _ msg (peer_key addr.1 addr.2) msg.value _ hlS3
    rw [← hrun1] at hmapF hwordF
    have hmem : peer_key addr.1 addr.2 ∈ cF.subconsensus_launched := hlaunchF hom
    have hlrun1 : mapLookup run1.consensus_map msg.id = some cF := by
      rw [hmapF]
      exact mapLookup_dictInsert_self _ _ _
    have hrecF : cF.record_report (peer_key addr.1 addr.2) msg.value = cF := by
      refine record_report_self _ _ _ ?_
      rw [hrepF]
      exact mapLookup_dictInsert_self _ _ _
    have homF' : 0 < cF.omlevel := by
      rw [homF]
      exact hom
    rw [handle_consensus_existing resolveHost fuel run1 msg addr now2 cF hlrun1]
    simp only [hrecF, if_pos homF']
    rw [launch_gated _ msg (peer_key addr.1 addr.2) msg.value cF (mapLookup_dictInsert_self _ _ _) hmem]
    constructor
    · show dictInsert (run1.add_peer resolveHost addr.1 addr.2 (some msg.initiator) now2).consensus_map msg.id cF = run1.consensus_map
      rw [add_peer_consensus_map]
      exact dictInsert_lookup_eq _ _ _ hlrun1
    · show (run1.add_peer resolveHost addr.1 addr.2 (some msg.initiator) now2).word_list = run1.word_list
      exact add_peer_word_list _ _ _ _ _ _
  · rw [if_neg hom, hid] at hrun1
    have hwfS3 : ParentRanked ({ s.add_peer resolveHost addr.1 addr.2 (some msg.initiator) now1 with consensus_map := dictInsert (s.add_peer resolveHost addr.1 addr.2 (some msg.initiator) now1).consensus_map msg.id (c0.record_report (peer_key addr.1 addr.2) msg.value) } : NodeState).consensus_map rk := by
      refine parentRanked_of_skel _ _ rk (fun x => ?_) (hrun1 ▸ hwf)
      exact (propagate_skel fuel _ msg.id (peer_key addr.1 addr.2) msg.value x).symm
    obtain ⟨cF, hcF, hcFrep, hcFom, hcFid⟩ :=
      propagate_at_start rk fuel _ msg.id (peer_key addr.1 addr.2) msg.value _ hwfS3
        (mapLookup_dictInsert_self _ _ _) (mapLookup_dictInsert_self _ _ _)
    rw [← hrun1] at hcF
    have hrecF : cF.record_report (peer_key addr.1 addr.2) msg.value = cF :=
      record_report_self _ _ _ hcFrep
    have homF' : ¬ 0 < cF.omlevel := by
      rw [hcFom]
      exact hom
    have hidF : cF.id = msg.id := by
      rw [hcFid]
      exact hid
    rw [handle_consensus_existing resolveHost fuel run1 msg addr now2 cF hcF]
    simp only [hrecF, if_neg homF', hidF]
    have hs3map : (({ run1.add_peer resolveHost addr.1 addr.2 (some msg.initiator) now2 with consensus_map := dictInsert (run1.add_peer resolveHost addr.1 addr.2 (some msg.initiator) now2).consensus_map msg.id cF }) : NodeState).consensus_map = run1.consensus_map := by
      show dictInsert (run1.add_peer resolveHost addr.1 addr.2 (some msg.initiator) now2).consensus_map msg.id cF = run1.consensus_map
      rw [add_peer_consensus_map]
      exact dictInsert_lookup_eq _ _ _ hcF
    have hs3word : (({ run1.add_peer resolveHost addr.1 addr.2 (some msg.initiator) now2 with consensus_map := dictInsert (run1.add_peer resolveHost addr.1 addr.2 (some msg.initiator) now2).consensus_map msg.id cF }) : NodeState).word_list = run1.word_list := by
      show (run1.add_peer resolveHost addr.1 addr.2 (some msg.initiator) now2).word_list = run1.word_list
      exact add_peer_word_list _ _ _ _ _ _
    have hcongr := propagate_proj_congr fuel ({ run1.add_peer resolveHost addr.1 addr.2 (some msg.initiator) now2 with consensus_map := dictInsert (run1.add_peer resolveHost addr.1 addr.2 (some msg.initiator) now2).consensus_map msg.id cF }) run1 msg.id (peer_key addr.1 addr.2) msg.value hs3map hs3word
    have hidem := propagate_idem rk fuel ({ s.add_peer resolveHost addr.1 addr.2 (some msg.initiator) now1 with consensus_map := dictInsert (s.add_peer resolveHost addr.1 addr.2 (some msg.initiator) now1).consensus_map msg.id (c0.record_report (peer_key addr.1 addr.2) msg.value) }) msg.id (peer_key addr.1 addr.2) msg.value hwfS3
    rw [← hrun1] at hidem
    constructor
    · rw [hcongr.1, hrun1] at *
      rw [hidem]
    · rw [hcongr.2, hrun1] at *
      rw [hidem]

/-! ## Concrete fixtures used by witnesses and counterexamples -/

/-- A freshly started node with no peers, empty caches and the five empty
word slots. -/
def testNode : NodeState where
  peer_host := "10.0.0.1"
  peer_port := 5
  peer_name := "N"
  cli_port := 9
  peers := []
  gossip_cache := []
  consensus_map := []
  word_list := ["", "", "", "", ""]
  lie_mode := false
  lies := []
  uuid_seed := 0
  sent := []
  logs := []

/-- A leaf-level CONSENSUS datagram whose single participant is its sender. -/
def msgLeaf : CMsg where
  command := "CONSENSUS"
  id := "I"
  omlevel := 0
  initiator := "init"
  peers := ["a:1"]
  index := 0
  value := "x"
  parentid := none
  reporter := none
  default_value := none

/-! ## Claim C7 -/

/-- C7: delivering the identical CONSENSUS datagram from the same source a
second time leaves the consensus state — the store with every instance's
reports, resolved value and `subconsensus_launched` set, and the word
array — exactly as it was after the first delivery.  The node state is
constrained only by two well-formedness conditions the engine itself
maintains: each stored instance's `id` equals its store key, and parent
links of the post-state are acyclic (witnessed by a rank function), per the
spec's invariant that a parent exists before its child. -/
theorem C7_handle_consensus_idempotent (resolveHost : String → String) (fuel : Nat)
    (s : NodeState) (msg : CMsg) (addr : String × Int) (now1 now2 : Int) (rk : String → Nat)
    (hkey : keyConsistentB s.consensus_map = true)
    (hrank : parentRankedB (handle_consensus resolveHost fuel s msg addr now1).consensus_map rk = true) :
    (handle_consensus resolveHost fuel (handle_consensus resolveHost fuel s msg addr now1) msg addr now2).consensus_map =
        (handle_consensus resolveHost fuel s msg addr now1).consensus_map ∧
      (handle_consensus resolveHost fuel (handle_consensus resolveHost fuel s msg addr now1) msg addr now2).word_list =
        (handle_consensus resolveHost fuel s msg addr now1).word_list := by
  have hwfOut : ParentRanked (handle_consensus resolveHost fuel s msg addr now1).consensus_map rk :=
    parentRankedB_imp _ _ hrank
  cases hm : mapLookup s.consensus_map msg.id with
  | none =>
      exact handle_idem_core resolveHost fuel rk s msg addr now1 now2 (ConsensusState.ofMsg msg)
        rfl _ (handle_consensus_fresh resolveHost fuel s msg addr now1 hm) hwfOut
  | some c0 =>
      exact handle_idem_core resolveHost fuel rk s msg addr now1 now2 c0
        (keyConsistent_lookup _ _ _ hkey hm) _
        (handle_consensus_existing resolveHost fuel s msg addr now1 c0 hm) hwfOut

/-- Witness for C7: a fresh node receives a complete leaf-level datagram
(which resolves the instance and commits the word slot), then the same
datagram again. -/
theorem C7_handle_consensus_idempotent_witness :
    keyConsistentB testNode.consensus_map = true ∧
      parentRankedB (handle_consensus id 5 testNode msgLeaf ("a", 1) 0).consensus_map
        (fun _ => 0) = true ∧
      ((handle_consensus id 5 (handle_consensus id 5 testNode msgLeaf ("a", 1) 0)
          msgLeaf ("a", 1) 1).consensus_map =
        (handle_consensus id 5 testNode msgLeaf ("a", 1) 0).consensus_map ∧
      (handle_consensus id 5 (handle_consensus id 5 testNode msgLeaf ("a", 1) 0)
          msgLeaf ("a", 1) 1).word_list =
        (handle_consensus id 5 testNode msgLeaf ("a", 1) 0).word_list) :=
  ⟨by decide, by decide,
    C7_handle_consensus_idempotent id 5 testNode msgLeaf ("a", 1) 0 1 (fun _ => 0)
      (by decide) (by decide)⟩

/-! ## Claim C2 -/

/-- A datagram whose `peers` list holds a single participant that is not any
of the senders used to deliver it. -/
def msgOnePeer : CMsg where
  command := "CONSENSUS"
  id := "I"
  omlevel := 0
  initiator := "init"
  peers := ["p:1"]
  index := 0
  value := "x"
  parentid := none
  reporter := none
  default_value := none

/-- Counterexample to C2 as stated: `handle_consensus` records the datagram
source as reporter regardless of the instance's `peers` list, so two
deliveries of an id with a one-entry peers list from two different sources
leave `|reports| = 2 > 1 = |peers|`. -/
theorem C2_reports_le_peers_cex :
    (mapLookup (handle_consensus id 5 (handle_consensus id 5 testNode msgOnePeer
        ("a", 1) 0) msgOnePeer ("b", 2) 1).consensus_map "I").map
      (fun st => (st.reports.length, st.peers.length)) = some (2, 1) := by
  decide

/-- C2 amended: `|reports| ≤ |peers|` holds whenever the recorded reporter
keys are distinct and all drawn from the instance's peers list (the spec's
intended senders); and on any complete instance the next
`propagate_result_upwards` call (with fuel to take a step) leaves `resolved`
set. -/
theorem C2_reports_bound_and_complete_resolves :
    (∀ st : ConsensusState, (st.reports.map Prod.fst).Nodup →
        (∀ k ∈ st.reports.map Prod.fst, k ∈ st.peers) →
        st.reports.length ≤ st.peers.length) ∧
    (∀ (fuel : Nat) (s : NodeState) (cid r v : String) (inst : ConsensusState),
        mapLookup s.consensus_map cid = some inst → inst.is_complete = true →
        ∃ inst', mapLookup (propagate_result_upwards (fuel + 1) s cid r v).consensus_map cid =
          some inst' ∧ (inst'.resolved).isSome) := by
  constructor
  · intro st hnd hsub
    calc st.reports.length = (st.reports.map Prod.fst).length := (List.length_map _ _).symm
      _ = (st.reports.map Prod.fst).toFinset.card := (List.toFinset_card_of_nodup hnd).symm
      _ ≤ st.peers.toFinset.card :=
          Finset.card_le_card
            (fun x hx => List.mem_toFinset.mpr (hsub x (List.mem_toFinset.mp hx)))
      _ ≤ st.peers.length := st.peers.toFinset_card_le
  · intro fuel s cid r v inst hlook hcomp
    have hcomp1 : (inst.record_report r v).is_complete = true :=
      record_preserves_complete _ _ _ hcomp
    obtain ⟨res, hfst⟩ := Option.isSome_iff_exists.mp
      (decide_fst_isSome (inst.record_report r v) (dictInsert_ne_nil _ _ _))
    have hsome : (((inst.record_report r v).decide).2).resolved = some res := by
      rw [ConsensusState.decide_snd_resolved, hfst]
    have hl2 : mapLookup (dictInsert (dictInsert s.consensus_map cid
        (inst.record_report r v)) cid ((inst.record_report r v).decide).2) cid =
        some ((inst.record_report r v).decide).2 := mapLookup_dictInsert_self _ _ _
    simp only [propagate_result_upwards, hlook, if_pos hcomp1, hfst]
    split
    · split
      · rw [commitRoot_consensus_map]
        exact ⟨_, hl2, by rw [hsome]; rfl⟩
      · split
        · exact (propagate_preserves_resolved fuel _ _ _ _ cid _ res hl2 hsome).imp
            (fun inst' h => ⟨h.1, by rw [h.2]; rfl⟩)
        · exact ⟨_, hl2, by rw [hsome]; rfl⟩
    · rw [commitRoot_consensus_map]
      exact ⟨_, hl2, by rw [hsome]; rfl⟩

/-- Witness for the amended C2 at a concrete state: two distinct reporters
inside a two-peer instance, and a complete one-peer instance that resolves
on the next propagate call. -/
theorem C2_reports_bound_and_complete_resolves_witness :
    (let st : ConsensusState :=
      { id := "I", omlevel := 0, initiator := "", peers := ["a:1", "b:2"], index := 0,
        value := "", parentid := none, reporter := none,
        reports := [("a:1", "x"), ("b:2", "y")], resolved := none,
        subconsensus_launched := [] }
     (st.reports.map Prod.fst).Nodup ∧ (∀ k ∈ st.reports.map Prod.fst, k ∈ st.peers) ∧
       st.reports.length ≤ st.peers.length) ∧
    (let inst : ConsensusState :=
      { id := "I", omlevel := 0, initiator := "", peers := ["a:1"], index := 0,
        value := "", parentid := none, reporter := none,
        reports := [("a:1", "x")], resolved := none, subconsensus_launched := [] }
     let s : NodeState := { testNode with consensus_map := [("I", inst)] }
     mapLookup s.consensus_map "I" = some inst ∧ inst.is_complete = true ∧
       ∃ inst', mapLookup (propagate_result_upwards 5 s "I" "a:1" "x").consensus_map "I" =
         some inst' ∧ (inst'.resolved).isSome) := by
  constructor
  · intro st
    refine ⟨by decide, by decide, ?_⟩
    exact (C2_reports_bound_and_complete_resolves).1 st (by decide) (by decide)
  · intro inst s
    refine ⟨by decide, by decide, ?_⟩
    exact (C2_reports_bound_and_complete_resolves).2 4 s "I" "a:1" "x" inst (by decide) (by decide)

/-! ## Claim C6 -/

/-- A CONSENSUS datagram at positive omlevel with two participants, sent by
the first of them. -/
def msgOm1 : CMsg where
  command := "CONSENSUS"
  id := "I"
  omlevel := 1
  initiator := "init"
  peers := ["p1:1", "p2:1"]
  index := 0
  value := "x"
  parentid := none
  reporter := none
  default_value := none

/-- Evaluation of the code at the C6 failing input: handling a positive-level
datagram adds the sender to the parent's `subconsensus_launched`, but the
`AttributeError` on `parent.default_value` (consensus.py line 76) aborts the
handler before the child instance is stored or any datagram is sent — the
store still holds only the parent, so no child exists for the launched
reporter. -/
theorem C6_launched_without_child_eval :
    (mapLookup (handle_consensus id 5 testNode msgOm1 ("p1", 1) 0).consensus_map "I").map
        (fun st => st.subconsensus_launched) = some ["p1:1"] ∧
      (handle_consensus id 5 testNode msgOm1 ("p1", 1) 0).consensus_map.length = 1 ∧
      (handle_consensus id 5 testNode msgOm1 ("p1", 1) 0).sent = [] := by
  decide

/-! ## Claim C8 -/

/-- The C8 datagram re-sent by the same reporter with a different value. -/
def msgLeafY : CMsg := { msgLeaf with value := "y" }

/-- Counterexample to C8 as stated: once the leaf instance resolves to "x",
the same reporter re-sends the id with value "y"; `record_report` overwrites
the only occurrence of "x", so the stored resolved value is no longer among
the values currently present in the reports map. -/
theorem C8_resolved_in_current_values_cex :
    (mapLookup (handle_consensus id 5 (handle_consensus id 5 testNode msgLeaf ("a", 1) 0)
        msgLeafY ("a", 1) 1).consensus_map "I").map
      (fun st => (st.resolved, st.reports.map Prod.snd)) = some (some "x", ["y"]) ∧
    "x" ∉ ["y"] := by
  constructor
  · decide
  · decide

/-- Once set, a `resolved` value survives a whole `handle_consensus` call,
for every instance in the store. -/
theorem handle_preserves_resolved (resolveHost : String → String) (fuel : Nat)
    (s : NodeState) (msg : CMsg) (addr : String × Int) (now : Int)
    (c : String) (inst : ConsensusState) (r0 : String)
    (hc : mapLookup s.consensus_map c = some inst) (hres : inst.resolved = some r0) :
    ∃ inst', mapLookup (handle_consensus resolveHost fuel s msg addr now).consensus_map c =
      some inst' ∧ inst'.resolved = some r0 := by
  cases hm : mapLookup s.consensus_map msg.id with
  | none =>
      have hne : c ≠ msg.id := by
        intro hcc
        subst hcc
        rw [hm] at hc
        exact Option.noConfusion hc
      have hS3 : mapLookup (dictInsert (s.add_peer resolveHost addr.1 addr.2
          (some msg.initiator) now).consensus_map msg.id
          ((ConsensusState.ofMsg msg).record_report (peer_key addr.1 addr.2) msg.value)) c =
          some inst := by
        rw [mapLookup_dictInsert_ne _ _ _ _ hne, add_peer_consensus_map]
        exact hc
      rw [handle_consensus_fresh resolveHost fuel s msg addr now hm]
      simp only []
      by_cases hom : (ConsensusState.ofMsg msg).omlevel > 0
      · rw [if_pos hom]
        obtain ⟨cF, hmapF, -, -, -, -, -, -⟩ :=
          launch_after ({ s.add_peer resolveHost addr.1 addr.2 (some msg.initiator) now with consensus_map := dictInsert (s.add_peer resolveHost addr.1 addr.2 (some msg.initiator) now).consensus_map msg.id ((ConsensusState.ofMsg msg).record_report (peer_key addr.1 addr.2) msg.value) }) msg (peer_key addr.1 addr.2) msg.value _
            (mapLookup_dictInsert_self _ _ _)
        rw [hmapF]
        refine ⟨inst, ?_, hres⟩
        rw [mapLookup_dictInsert_ne _ _ _ _ hne]
        exact hS3
      · rw [if_neg hom]
        exact propagate_preserves_resolved fuel _ _ _ _ c inst r0 hS3 hres
  | some c0 =>
      rw [handle_consensus_existing resolveHost fuel s msg addr now c0 hm]
      simp only []
      by_cases hcc : c = msg.id
      · subst hcc
        have hinst : c0 = inst := by
          rw [hc] at hm
          exact (Option.some.inj hm).symm
        subst hinst
        have hres1 : (c0.record_report (peer_key addr.1 addr.2) msg.value).resolved =
            some r0 := hres
        by_cases hom : c0.omlevel > 0
        · rw [if_pos hom]
          obtain ⟨cF, hmapF, -, -, -, -, hresF, -⟩ :=
            launch_after ({ s.add_peer resolveHost addr.1 addr.2 (some msg.initiator) now with consensus_map := dictInsert (s.add_peer resolveHost addr.1 addr.2 (some msg.initiator) now).consensus_map msg.id (c0.record_report (peer_key addr.1 addr.2) msg.value) }) msg (peer_key addr.1 addr.2) msg.value _
              (mapLookup_dictInsert_self _ _ _)
          rw [hmapF]
          refine ⟨cF, mapLookup_dictInsert_self _ _ _, ?_⟩
          rw [hresF]
          exact hres1
        · rw [if_neg hom]
          exact propagate_preserves_resolved fuel _ _ _ _ msg.id _ r0
            (mapLookup_dictInsert_self _ _ _) hres1
      · have hS3 : mapLookup (dictInsert (s.add_peer resolveHost addr.1 addr.2
            (some msg.initiator) now).consensus_map msg.id
            (c0.record_report (peer_key addr.1 addr.2) msg.value)) c = some inst := by
          rw [mapLookup_dictInsert_ne _ _ _ _ hcc, add_peer_consensus_map]
          exact hc
        by_cases hom : c0.omlevel > 0
        · rw [if_pos hom]
          obtain ⟨cF, hmapF, -, -, -, -, -, -⟩ :=
            launch_after ({ s.add_peer resolveHost addr.1 addr.2 (some msg.initiator) now with consensus_map := dictInsert (s.add_peer resolveHost addr.1 addr.2 (some msg.initiator) now).consensus_map msg.id (c0.record_report (peer_key addr.1 addr.2) msg.value) }) msg (peer_key addr.1 addr.2) msg.value _
              (mapLookup_dictInsert_self _ _ _)
          rw [hmapF]
          refine ⟨inst, ?_, hres⟩
          rw [mapLookup_dictInsert_ne _ _ _ _ hcc]
          exact hS3
        · rw [if_neg hom]
          exact propagate_preserves_resolved fuel _ _ _ _ c inst r0 hS3 hres

/-- C8 amended: a set `resolved` value is never changed — `record_report`
does not touch it, `decide` returns it unchanged, and both
`propagate_result_upwards` and `handle_consensus` preserve it on every
instance — and the value is an element of the report values as they stood at
the moment `decide` first set it. -/
theorem C8_resolved_immutable_and_in_values_at_set_time :
    (∀ (st : ConsensusState) (r v : String), (st.record_report r v).resolved = st.resolved) ∧
    (∀ (st : ConsensusState) (r0 : String), st.resolved = some r0 → st.decide = (some r0, st)) ∧
    (∀ (st : ConsensusState) (w : String), st.resolved = none → (st.decide).1 = some w →
      w ∈ st.values ∧ ((st.decide).2).resolved = some w) ∧
    (∀ (fuel : Nat) (s : NodeState) (cid r v c : String) (inst : ConsensusState) (r0 : String),
      mapLookup s.consensus_map c = some inst → inst.resolved = some r0 →
      ∃ inst', mapLookup (propagate_result_upwards fuel s cid r v).consensus_map c =
        some inst' ∧ inst'.resolved = some r0) ∧
    (∀ (resolveHost : String → String) (fuel : Nat) (s : NodeState) (msg : CMsg)
        (addr : String × Int) (now : Int) (c : String) (inst : ConsensusState) (r0 : String),
      mapLookup s.consensus_map c = some inst → inst.resolved = some r0 →
      ∃ inst', mapLookup (handle_consensus resolveHost fuel s msg addr now).consensus_map c =
        some inst' ∧ inst'.resolved = some r0) := by
  refine ⟨fun st r v => rfl, fun st r0 h => ConsensusState.decide_of_resolved st r0 h,
    ?_, fun fuel s cid r v c inst r0 hc hres =>
      propagate_preserves_resolved fuel s cid r v c inst r0 hc hres,
    fun resolveHost fuel s msg addr now c inst r0 hc hres =>
      handle_preserves_resolved resolveHost fuel s msg addr now c inst r0 hc hres⟩
  intro st w hres hfst
  by_cases hrep : st.reports = []
  · rw [ConsensusState.decide_of_empty st hres hrep] at hfst
    exact Option.noConfusion hfst
  · obtain ⟨w', hw', hmem, -, -⟩ := ConsensusState.decide_of_ne_empty st hres hrep
    have hww : w' = w := by
      rw [hw'] at hfst
      exact Option.some.inj hfst
    subst hww
    rw [hw']
    exact ⟨hmem, rfl⟩

/-- Witness for the amended C8: the resolved leaf instance from the C8
counterexample run keeps its value "x" through a further delivery. -/
theorem C8_resolved_immutable_and_in_values_at_set_time_witness :
    (let inst : ConsensusState :=
      { id := "I", omlevel := 0, initiator := "", peers := ["a:1"], index := 0,
        value := "", parentid := none, reporter := none,
        reports := [("a:1", "x")], resolved := some "x", subconsensus_launched := [] }
     let s : NodeState := { testNode with consensus_map := [("I", inst)] }
     mapLookup s.consensus_map "I" = some inst ∧ inst.resolved = some "x" ∧
       ∃ inst', mapLookup (handle_consensus id 5 s msgLeafY ("a", 1) 0).consensus_map "I" =
         some inst' ∧ inst'.resolved = some "x") := by
  intro inst s
  refine ⟨by decide, by decide, ?_⟩
  exact (C8_resolved_immutable_and_in_values_at_set_time).2.2.2.2 id 5 s msgLeafY
    ("a", 1) 0 "I" inst "x" (by decide) (by decide)

theorem choose_value_sent (s : NodeState) (honest : String) :
    ((choose_value s honest).2).sent = s.sent := by
  rw [choose_value_snd]

theorem choose_value_logs (s : NodeState) (honest : String) :
    ((choose_value s honest).2).logs = s.logs := by
  rw [choose_value_snd]

/-- The send loop of `start_root_consensus` only appends datagrams and
consumes fault-injection draws: store, word array and logs are untouched,
and `sent` only grows. -/
theorem start_fold_frame (msg : CMsg) (self_key value : String) :
    ∀ (peers : List String) (acc : NodeState),
      ((peers.foldl (fun acc peer =>
          if peer = self_key then acc
          else
            let pv := choose_value acc value
            let peer_msg := { msg with value := pv.1 }
            { pv.2 with sent := pv.2.sent ++ [(peer, OutMsg.consensus peer_msg)] }) acc).word_list
          = acc.word_list) ∧
      ((peers.foldl (fun acc peer =>
          if peer = self_key then acc
          else
            let pv := choose_value acc value
            let peer_msg := { msg with value := pv.1 }
            { pv.2 with sent := pv.2.sent ++ [(peer, OutMsg.consensus peer_msg)] }) acc).consensus_map
          = acc.consensus_map) ∧
      ((peers.foldl (fun acc peer =>
          if peer = self_key then acc
          else
            let pv := choose_value acc value
            let peer_msg := { msg with value := pv.1 }
            { pv.2 with sent := pv.2.sent ++ [(peer, OutMsg.consensus peer_msg)] }) acc).logs
          = acc.logs) := by
  intro peers
  induction peers with
  | nil => intro acc; exact ⟨rfl, rfl, rfl⟩
  | cons hd tl ih =>
      intro acc
      rw [List.foldl_cons]
      by_cases h : hd = self_key
      · rw [if_pos h]
        exact ih acc
      · rw [if_neg h]
        obtain ⟨hw, hm, hl⟩ := ih ({ (choose_value acc value).2 with
          sent := (choose_value acc value).2.sent ++
            [(hd, OutMsg.consensus { msg with value := (choose_value acc value).1 })] })
        refine ⟨?_, ?_, ?_⟩
        · rw [hw]
          exact choose_value_word_list acc value
        · rw [hm]
          exact choose_value_consensus_map acc value
        · rw [hl]
          exact choose_value_logs acc value

theorem start_fold_word (msg : CMsg) (self_key value : String) (peers : List String)
    (acc : NodeState) :
    (peers.foldl (fun acc peer =>
        if peer = self_key then acc
        else
          let pv := choose_value acc value
          let peer_msg := { msg with value := pv.1 }
          { pv.2 with sent := pv.2.sent ++ [(peer, OutMsg.consensus peer_msg)] }) acc).word_list
      = acc.word_list :=
  (start_fold_frame msg self_key value peers acc).1

theorem start_fold_map (msg : CMsg) (self_key value : String) (peers : List String)
    (acc : NodeState) :
    (peers.foldl (fun acc peer =>
        if peer = self_key then acc
        else
          let pv := choose_value acc value
          let peer_msg := { msg with value := pv.1 }
          { pv.2 with sent := pv.2.sent ++ [(peer, OutMsg.consensus peer_msg)] }) acc).consensus_map
      = acc.consensus_map :=
  (start_fold_frame msg self_key value peers acc).2.1

theorem start_fold_logs (msg : CMsg) (self_key value : String) (peers : List String)
    (acc : NodeState) :
    (peers.foldl (fun acc peer =>
        if peer = self_key then acc
        else
          let pv := choose_value acc value
          let peer_msg := { msg with value := pv.1 }
          { pv.2 with sent := pv.2.sent ++ [(peer, OutMsg.consensus peer_msg)] }) acc).logs
      = acc.logs :=
  (start_fold_frame msg self_key value peers acc).2.2

/-! ## Claim C5 -/

/-- A node that knows exactly one peer besides itself: `n = 2`, `m = 0`. -/
def nodeOnePeer : NodeState :=
  { testNode with peers := [("b:2", { host := "b", port := 2, name := "b:2", lastSeen := 0 })] }

/-- Counterexample to C5 as stated: with two participants and `m = 0`, the
initiator still writes `word_list[0]` eagerly at initiation. -/
theorem C5_eager_write_cex :
    (start_root_consensus nodeOnePeer 0 "w").word_list = ["w", "", "", "", ""] ∧
      (mapLookup (start_root_consensus nodeOnePeer 0 "w").consensus_map "uuid-0").map
        (fun st => (st.omlevel, st.peers.length)) = some (0, 2) := by
  decide

/-- C5 amended: `start_root_consensus` writes the self-chosen value into
`word_list[index]` unconditionally whenever the index is in range — for any
omlevel and any number of participants — and leaves the word array unchanged
exactly when the index is out of range. -/
theorem C5_word_written_unconditionally (s : NodeState) (index : Int) (value : String) :
    ((0 ≤ index ∧ index < (s.word_list.length : Int)) →
      (start_root_consensus s index value).word_list =
        s.word_list.set index.toNat
          (choose_value { s with uuid_seed := s.uuid_seed + 1 } value).1) ∧
    (¬(0 ≤ index ∧ index < (s.word_list.length : Int)) →
      (start_root_consensus s index value).word_list = s.word_list) := by
  simp only [start_root_consensus]
  have hPne : (if peer_key s.peer_host s.peer_port ∈ s.peers.map Prod.fst
      then s.peers.map Prod.fst
      else peer_key s.peer_host s.peer_port :: s.peers.map Prod.fst) ≠ [] := by
    split
    · rename_i hmem
      exact List.ne_nil_of_mem hmem
    · exact List.cons_ne_nil _ _
  rw [if_neg (fun h0 => hPne (List.length_eq_zero.mp h0))]
  simp only [start_fold_word ({ command := "CONSENSUS", id := uuidGen s.uuid_seed, omlevel := (((if peer_key s.peer_host s.peer_port ∈ s.peers.map Prod.fst then s.peers.map Prod.fst else peer_key s.peer_host s.peer_port :: s.peers.map Prod.fst).length : Int) - 1) / 3, initiator := peer_key s.peer_host s.peer_port, peers := if peer_key s.peer_host s.peer_port ∈ s.peers.map Prod.fst then s.peers.map Prod.fst else peer_key s.peer_host s.peer_port :: s.peers.map Prod.fst, index := index, value := (choose_value { s with uuid_seed := s.uuid_seed + 1 } value).1, parentid := none, reporter := none, default_value := some value }) (peer_key s.peer_host s.peer_port) value]
  have hcond : ((choose_value { s with uuid_seed := s.uuid_seed + 1 } value).2).word_list =
      s.word_list := choose_value_word_list _ _
  rw [hcond]
  constructor
  · intro hidx
    rw [if_pos hidx]
  · intro hidx
    rw [if_neg hidx]

/-- Witness for the amended C5: index 0 is in range on the five-slot array
of a fresh node, and index 9 is out of range. -/
theorem C5_word_written_unconditionally_witness :
    ((0 ≤ (0 : Int) ∧ (0 : Int) < (testNode.word_list.length : Int)) ∧
      (start_root_consensus testNode 0 "w").word_list =
        testNode.word_list.set (0 : Int).toNat
          (choose_value { testNode with uuid_seed := testNode.uuid_seed + 1 } "w").1) ∧
    (¬(0 ≤ (9 : Int) ∧ (9 : Int) < (testNode.word_list.length : Int)) ∧
      (start_root_consensus testNode 9 "w").word_list = testNode.word_list) :=
  ⟨⟨by decide, (C5_word_written_unconditionally testNode 0 "w").1 (by decide)⟩,
   ⟨by decide, (C5_word_written_unconditionally testNode 9 "w").2 (by decide)⟩⟩

/-! ## Claim C3 -/

/-- Counterexample to C3 as stated: invoked with zero known peers,
`start_root_consensus` does not report "no peers" and does not abort — it
creates a root instance (the participant set always contains the node
itself, so the zero-participant branch is unreachable). -/
theorem C3_no_peers_branch_dead_cex :
    (start_root_consensus testNode 0 "w").consensus_map.length = 1 ∧
      LogEvent.noPeers ∉ (start_root_consensus testNode 0 "w").logs ∧
      (start_root_consensus testNode 0 "w").sent = [] := by
  decide

/-- C3 amended: with zero known peers the participant set is `{self}`, so
`start_root_consensus` proceeds rather than aborting: it creates a root
instance with `omlevel = 0`, no parent, the self key as sole participant
and the self report recorded, logs only the "started" line (never the
"no peers" line), and emits no datagrams. -/
theorem C3_zero_known_peers_creates_root (s : NodeState) (index : Int) (value : String)
    (h : s.peers = []) :
    ∃ (v : String) (st : ConsensusState),
      mapLookup (start_root_consensus s index value).consensus_map (uuidGen s.uuid_seed) =
        some st ∧
      st.omlevel = 0 ∧ st.parentid = none ∧
      st.peers = [peer_key s.peer_host s.peer_port] ∧
      st.reports = [(peer_key s.peer_host s.peer_port, v)] ∧
      (start_root_consensus s index value).logs =
        s.logs ++ [LogEvent.startedConsensus (uuidGen s.uuid_seed) index v 0] ∧
      (start_root_consensus s index value).sent = s.sent := by
  simp only [start_root_consensus, h, List.map_nil]
  rw [if_neg (List.not_mem_nil _)]
  simp only [List.length_cons, List.length_nil, Nat.zero_add, Nat.cast_one]
  rw [if_neg one_ne_zero]
  have hm : ((1 : Int) - 1) / 3 = 0 := by norm_num
  rw [hm]
  rw [List.foldl_cons, List.foldl_nil, if_pos rfl]
  have hcond : ((choose_value { s with peers := ([] : List (String × PeerRec)), uuid_seed := s.uuid_seed + 1 } value).2).word_list =
      s.word_list := choose_value_word_list _ _
  rw [hcond]
  by_cases hidx : 0 ≤ index ∧ index < (s.word_list.length : Int)
  · rw [if_pos hidx]
    refine ⟨(choose_value { s with peers := ([] : List (String × PeerRec)), uuid_seed := s.uuid_seed + 1 } value).1, _,
      mapLookup_dictInsert_self _ _ _, rfl, rfl, rfl, rfl, ?_, ?_⟩
    · simp [choose_value_logs]
    · simp [choose_value_sent]
  · rw [if_neg hidx]
    refine ⟨(choose_value { s with peers := ([] : List (String × PeerRec)), uuid_seed := s.uuid_seed + 1 } value).1, _,
      mapLookup_dictInsert_self _ _ _, rfl, rfl, rfl, rfl, ?_, ?_⟩
    · simp [choose_value_logs]
    · simp [choose_value_sent]

/-- Witness for the amended C3 at a concrete fresh node. -/
theorem C3_zero_known_peers_creates_root_witness :
    testNode.peers = [] ∧
      ∃ (v : String) (st : ConsensusState),
        mapLookup (start_root_consensus testNode 0 "w").consensus_map
          (uuidGen testNode.uuid_seed) = some st ∧
        st.omlevel = 0 ∧ st.parentid = none ∧
        st.peers = [peer_key testNode.peer_host testNode.peer_port] ∧
        st.reports = [(peer_key testNode.peer_host testNode.peer_port, v)] ∧
        (start_root_consensus testNode 0 "w").logs =
          testNode.logs ++ [LogEvent.startedConsensus (uuidGen testNode.uuid_seed) 0 v 0] ∧
        (start_root_consensus testNode 0 "w").sent = testNode.sent :=
  ⟨rfl, C3_zero_known_peers_creates_root testNode 0 "w" rfl⟩

/-! ## Claim C4 -/

theorem mark_gossip_seen_sent (s : NodeState) (gid : String) (now : Int) :
    (mark_gossip_seen s gid now).2.sent = s.sent := by
  simp only [mark_gossip_seen]
  split <;> rfl

theorem mark_gossip_seen_uuid_seed (s : NodeState) (gid : String) (now : Int) :
    (mark_gossip_seen s gid now).2.uuid_seed = s.uuid_seed := by
  simp only [mark_gossip_seen]
  split <;> rfl

theorem mark_gossip_seen_peer_host (s : NodeState) (gid : String) (now : Int) :
    (mark_gossip_seen s gid now).2.peer_host = s.peer_host := by
  simp only [mark_gossip_seen]
  split <;> rfl

theorem mark_gossip_seen_peer_port (s : NodeState) (gid : String) (now : Int) :
    (mark_gossip_seen s gid now).2.peer_port = s.peer_port := by
  simp only [mark_gossip_seen]
  split <;> rfl

theorem mark_gossip_seen_peer_name (s : NodeState) (gid : String) (now : Int) :
    (mark_gossip_seen s gid now).2.peer_name = s.peer_name := by
  simp only [mark_gossip_seen]
  split <;> rfl

theorem mark_gossip_seen_cli_port (s : NodeState) (gid : String) (now : Int) :
    (mark_gossip_seen s gid now).2.cli_port = s.cli_port := by
  simp only [mark_gossip_seen]
  split <;> rfl

theorem add_peer_sent (resolveHost : String → String) (s : NodeState)
    (host : String) (port : Int) (name : Option String) (now : Int) :
    (s.add_peer resolveHost host port name now).sent = s.sent := by
  simp only [NodeState.add_peer]
  split <;> split <;> rfl

theorem add_peer_uuid_seed (resolveHost : String → String) (s : NodeState)
    (host : String) (port : Int) (name : Option String) (now : Int) :
    (s.add_peer resolveHost host port name now).uuid_seed = s.uuid_seed := by
  simp only [NodeState.add_peer]
  split <;> split <;> rfl

theorem add_peer_peer_host (resolveHost : String → String) (s : NodeState)
    (host : String) (port : Int) (name : Option String) (now : Int) :
    (s.add_peer resolveHost host port name now).peer_host = s.peer_host := by
  simp only [NodeState.add_peer]
  split <;> split <;> rfl

theorem add_peer_peer_port (resolveHost : String → String) (s : NodeState)
    (host : String) (port : Int) (name : Option String) (now : Int) :
    (s.add_peer resolveHost host port name now).peer_port = s.peer_port := by
  simp only [NodeState.add_peer]
  split <;> split <;> rfl

theorem add_peer_peer_name (resolveHost : String → String) (s : NodeState)
    (host : String) (port : Int) (name : Option String) (now : Int) :
    (s.add_peer resolveHost host port name now).peer_name = s.peer_name := by
  simp only [NodeState.add_peer]
  split <;> split <;> rfl

theorem add_peer_cli_port (resolveHost : String → String) (s : NodeState)
    (host : String) (port : Int) (name : Option String) (now : Int) :
    (s.add_peer resolveHost host port name now).cli_port = s.cli_port := by
  simp only [NodeState.add_peer]
  split <;> split <;> rfl

theorem gossip_fold_frame (msg : GMsg) (ps : List (String × Int)) (acc : NodeState) :
    ∃ tl, ps.foldl
        (fun a p => { a with sent := a.sent ++ [(peer_key p.1 p.2, OutMsg.gossip msg)] }) acc =
      { acc with sent := acc.sent ++ tl } := by
  induction ps generalizing acc with
  | nil => exact ⟨[], by simp⟩
  | cons p ps ih =>
      obtain ⟨tl, htl⟩ :=
        ih { acc with sent := acc.sent ++ [(peer_key p.1 p.2, OutMsg.gossip msg)] }
      refine ⟨(peer_key p.1 p.2, OutMsg.gossip msg) :: tl, ?_⟩
      simp only [List.foldl_cons]
      rw [htl]
      simp

theorem forward_gossip_frame (shuffle : List (String × Int) → List (String × Int))
    (s : NodeState) (msg : GMsg) (exclude : String × Int) :
    ∃ tl, forward_gossip shuffle s msg exclude = { s with sent := s.sent ++ tl } := by
  simp only [forward_gossip]
  exact gossip_fold_frame msg _ s

/-- A node that already knows peer `h:1`. -/
def nodeKnown : NodeState :=
  { testNode with
      peers := [("h:1", { host := "h", port := 1, name := "peerH", lastSeen := 0 })] }

/-- A GOSSIP datagram announcing the already-known peer `h:1`. -/
def gmsg : GMsg where
  command := "GOSSIP"
  host := some "h"
  port := some 1
  name := some "peerH"
  id := "g1"
  cliPort := some 7

/-- Counterexample to C4 as stated: the sender `h:1` is already known to
Membership before the datagram arrives, yet `handle_gossip` still unicasts a
GOSSIP_REPLY back to the source, because the reply condition
`not existing or command == "GOSSIP"` is always true on a GOSSIP datagram. -/
theorem C4_reply_to_known_peer_cex :
    (mapLookup nodeKnown.peers (peer_key "h" 1)).isSome = true ∧
      (handle_gossip (fun h => h) (fun l => l) nodeKnown gmsg ("h", 1) 0).sent =
        [(peer_key "h" 1, OutMsg.gossipReply
          { command := "GOSSIP_REPLY", host := some "10.0.0.1", port := some 5,
            name := some "N", id := uuidGen 0, cliPort := some 9 })] := by
  decide

/-- C4 amended: on every GOSSIP datagram, known sender or not, `handle_gossip`
unicasts exactly one GOSSIP_REPLY back to the datagram source (as the last
datagram it emits), since `not existing or command == "GOSSIP"` holds whenever
the command is GOSSIP. -/
theorem C4_gossip_always_replies (resolveHost : String → String)
    (shuffle : List (String × Int) → List (String × Int)) (s : NodeState) (msg : GMsg)
    (addr : String × Int) (now : Int) (h : msg.command = "GOSSIP") :
    ∃ mid, (handle_gossip resolveHost shuffle s msg addr now).sent =
      s.sent ++ mid ++ [(peer_key addr.1 addr.2, OutMsg.gossipReply
        { command := "GOSSIP_REPLY", host := some s.peer_host, port := some s.peer_port,
          name := some s.peer_name, id := uuidGen s.uuid_seed,
          cliPort := some s.cli_port })] := by
  obtain ⟨tl, htl⟩ := forward_gossip_frame shuffle
    (((mark_gossip_seen s msg.id now).2).add_peer resolveHost (msg.host.getD addr.1)
      (msg.port.getD addr.2) msg.name now) msg addr
  simp only [handle_gossip]
  rw [if_pos (Or.inr h)]
  by_cases hseen : (mark_gossip_seen s msg.id now).1 = false
  · rw [if_pos hseen, htl]
    refine ⟨tl, ?_⟩
    simp [send_gossip_reply, add_peer_sent, add_peer_uuid_seed, add_peer_peer_host,
      add_peer_peer_port, add_peer_peer_name, add_peer_cli_port, mark_gossip_seen_sent,
      mark_gossip_seen_uuid_seed, mark_gossip_seen_peer_host, mark_gossip_seen_peer_port,
      mark_gossip_seen_peer_name, mark_gossip_seen_cli_port, List.append_assoc]
  · rw [if_neg hseen]
    refine ⟨[], ?_⟩
    simp [send_gossip_reply, add_peer_sent, add_peer_uuid_seed, add_peer_peer_host,
      add_peer_peer_port, add_peer_peer_name, add_peer_cli_port, mark_gossip_seen_sent,
      mark_gossip_seen_uuid_seed, mark_gossip_seen_peer_host, mark_gossip_seen_peer_port,
      mark_gossip_seen_peer_name, mark_gossip_seen_cli_port, List.append_assoc]

/-- Witness for the amended C4 at a concrete GOSSIP datagram. -/
theorem C4_gossip_always_replies_witness :
    gmsg.command = "GOSSIP" ∧
      ∃ mid, (handle_gossip (fun h => h) (fun l => l) testNode gmsg ("h", 1) 0).sent =
        testNode.sent ++ mid ++ [(peer_key "h" 1, OutMsg.gossipReply
          { command := "GOSSIP_REPLY", host := some testNode.peer_host,
            port := some testNode.peer_port, name := some testNode.peer_name,
            id := uuidGen testNode.uuid_seed, cliPort := some testNode.cli_port })] :=
  ⟨rfl, C4_gossip_always_replies (fun h => h) (fun l => l) testNode gmsg ("h", 1) 0 rfl⟩

/-! ## Claim C9 -/

/-- A datagram is a gossip forward when its payload is a GOSSIP message. -/
def isGossipForward : String × OutMsg → Bool
  | (_, OutMsg.gossip _) => true
  | _ => false

theorem mapLookup_filter {α : Type} (l : List (String × α)) (k : String) (v : α)
    (p : String × α → Bool) (h : mapLookup l k = some v) (hp : p (k, v) = true) :
    mapLookup (l.filter p) k = some v := by
  induction l with
  | nil => simp [mapLookup] at h
  | cons hd tl ih =>
      obtain ⟨k', v'⟩ := hd
      by_cases hk : k' = k
      · subst hk
        simp only [mapLookup, if_pos rfl] at h
        obtain rfl : v' = v := Option.some.inj h
        rw [List.filter_cons, if_pos hp]
        simp [mapLookup]
      · simp only [mapLookup, if_neg hk] at h
        rw [List.filter_cons]
        split
        · simp only [mapLookup, if_neg hk]
          exact ih h
        · exact ih h

theorem mapLookup_filter_none {α : Type} (l : List (String × α)) (k : String)
    (p : String × α → Bool) (h : mapLookup l k = none) :
    mapLookup (l.filter p) k = none := by
  induction l with
  | nil => simp [mapLookup]
  | cons hd tl ih =>
      obtain ⟨k', v'⟩ := hd
      by_cases hk : k' = k
      · simp [mapLookup, hk] at h
      · simp only [mapLookup, if_neg hk] at h
        rw [List.filter_cons]
        split
        · simp only [mapLookup, if_neg hk]
          exact ih h
        · exact ih h

theorem add_peer_gossip_cache (resolveHost : String → String) (s : NodeState)
    (host : String) (port : Int) (name : Option String) (now : Int) :
    (s.add_peer resolveHost host port name now).gossip_cache = s.gossip_cache := by
  simp only [NodeState.add_peer]
  split <;> split <;> rfl

theorem send_gossip_reply_gossip_cache (s : NodeState) (host : String) (port : Int) :
    (send_gossip_reply s host port).gossip_cache = s.gossip_cache := rfl

theorem forward_gossip_gossip_cache (shuffle : List (String × Int) → List (String × Int))
    (s : NodeState) (msg : GMsg) (exclude : String × Int) :
    (forward_gossip shuffle s msg exclude).gossip_cache = s.gossip_cache := by
  obtain ⟨tl, htl⟩ := forward_gossip_frame shuffle s msg exclude
  rw [htl]

theorem mark_gossip_seen_fresh (s : NodeState) (gid : String) (now : Int)
    (h : mapLookup (s.gossip_cache.filter (fun kv => now - kv.2 < 300)) gid = none) :
    mark_gossip_seen s gid now =
      (false, { s with gossip_cache := dictInsert (s.gossip_cache.filter (fun kv => now - kv.2 < 300)) gid now }) := by
  simp [mark_gossip_seen, h]

theorem mark_gossip_seen_dup (s : NodeState) (gid : String) (now : Int) (t0 : Int)
    (h : mapLookup (s.gossip_cache.filter (fun kv => now - kv.2 < 300)) gid = some t0) :
    mark_gossip_seen s gid now =
      (true, { s with gossip_cache := s.gossip_cache.filter (fun kv => now - kv.2 < 300) }) := by
  simp [mark_gossip_seen, h]

/-- C9: the gossip cache makes each gossip id forwarded at most once per
300-second window.  Handling a fresh id records it in the cache at the
current time; handling an id whose cache entry is younger than 300 seconds
keeps the original entry (the window is not extended) and emits zero
forwarded GOSSIP datagrams — the sent trace gains no gossip forwards. -/
theorem C9_duplicate_gossip_forwarded_once (resolveHost : String → String)
    (shuffle : List (String × Int) → List (String × Int)) (s : NodeState) (msg : GMsg)
    (addr : String × Int) (now : Int) :
    (mapLookup s.gossip_cache msg.id = none →
      mapLookup (handle_gossip resolveHost shuffle s msg addr now).gossip_cache msg.id
        = some now) ∧
    (∀ t0 : Int, mapLookup s.gossip_cache msg.id = some t0 → now - t0 < 300 →
      mapLookup (handle_gossip resolveHost shuffle s msg addr now).gossip_cache msg.id
        = some t0 ∧
      (handle_gossip resolveHost shuffle s msg addr now).sent.filter isGossipForward =
        s.sent.filter isGossipForward) := by
  constructor
  · intro hnone
    have hnone' : mapLookup (s.gossip_cache.filter (fun kv => now - kv.2 < 300)) msg.id
        = none := mapLookup_filter_none s.gossip_cache msg.id _ hnone
    have hmark := mark_gossip_seen_fresh s msg.id now hnone'
    simp only [handle_gossip, hmark, eq_self_iff_true, if_true]
    split
    · simp [send_gossip_reply, forward_gossip_gossip_cache, add_peer_gossip_cache,
        mapLookup_dictInsert_self]
    · simp [forward_gossip_gossip_cache, add_peer_gossip_cache, mapLookup_dictInsert_self]
  · intro t0 h0 hage
    have hdup : mapLookup (s.gossip_cache.filter (fun kv => now - kv.2 < 300)) msg.id
        = some t0 := mapLookup_filter s.gossip_cache msg.id t0 _ h0 (decide_eq_true hage)
    have hmark := mark_gossip_seen_dup s msg.id now t0 hdup
    simp only [handle_gossip, hmark, Bool.true_eq_false, if_false]
    constructor
    · split
      · simp [send_gossip_reply, add_peer_gossip_cache, hdup]
      · simp [add_peer_gossip_cache, hdup]
    · split
      · simp [send_gossip_reply, add_peer_sent, mark_gossip_seen_sent, List.filter_append,
          isGossipForward]
      · simp [add_peer_sent, mark_gossip_seen_sent]

/-- Witness for C9: a node whose cache holds gossip id `g1` at time 10,
receiving the same id again at time 20, keeps the entry and forwards
nothing. -/
theorem C9_duplicate_gossip_forwarded_once_witness :
    mapLookup ({ testNode with gossip_cache := [("g1", 10)] } : NodeState).gossip_cache
        gmsg.id = some 10 ∧
      (20 : Int) - 10 < 300 ∧
      (mapLookup (handle_gossip (fun h => h) (fun l => l)
            { testNode with gossip_cache := [("g1", 10)] } gmsg ("h", 1) 20).gossip_cache
          gmsg.id = some 10 ∧
        (handle_gossip (fun h => h) (fun l => l)
            { testNode with gossip_cache := [("g1", 10)] } gmsg ("h", 1) 20).sent.filter
            isGossipForward =
          ({ testNode with gossip_cache := [("g1", 10)] } : NodeState).sent.filter
            isGossipForward) :=
  ⟨rfl, by decide,
    (C9_duplicate_gossip_forwarded_once (fun h => h) (fun l => l)
        { testNode with gossip_cache := [("g1", 10)] } gmsg ("h", 1) 20).2 10 rfl
      (by decide)⟩

end OM
